import Mathlib

/-!
Verification of the `ProviderData` state engine of the hardhat/EDR provider
(`crates/edr_provider/src/data.rs`), via a shallow embedding in Lean.

Machine integers (`u64`, `i64`, `U256`) are modelled as `Nat`/`Int`; addresses,
hashes, traces and execution results are opaque `Nat` tokens.  Collaborators
that live outside the provider crate (the EVM interpreter, the mempool
internals, the remote RPC client, bloom filters) enter the model as explicit
oracle parameters, so every theorem quantifies over their behaviour.
-/

namespace HardhatProvider

/-- Ordinals of the revm `SpecId` hard-fork enum; only their relative order
is ever used by the provider code. -/
def SpecId.LONDON : Nat := 12

/-- `SpecId::MERGE`; strictly above London. -/
def SpecId.MERGE : Nat := 15

/-- The subset of `ProviderError` variants that the modelled operations can
produce.  Errors coming from abstracted collaborators (blockchain storage,
state storage, mempool internals, the EVM) are carried by the `external`
constructor as opaque codes. -/
inductive ProviderError where
  | timestampLowerThanPrevious (proposed previous : Nat)
  | timestampEqualsPrevious (proposed : Nat)
  | unmetHardfork (actual minimum : Nat)
  | invalidBlockNumberOrHash (latestBlockNumber : Nat)
  | invalidBlockTag
  | external (code : Nat)
  deriving DecidableEq

/-- `ProviderData::next_block_timestamp` (data.rs).  Pure function of the
latest block's timestamp, the wall-clock epoch seconds (`current_timestamp`),
the sticky `next_block_timestamp` field, the stored time offset, the
`allow_blocks_with_same_timestamp` flag and the optional explicit `timestamp`
argument.  Returns the chosen block timestamp and the optional new offset.
The explicit-timestamp branch mirrors the source's
`timestamp.checked_sub(latest).ok_or(TimestampLowerThanPrevious)`, which
fails exactly when `timestamp < latest`. -/
def next_block_timestamp (latest_timestamp : Nat) (current_timestamp : Int)
    (sticky_next_block_timestamp : Option Nat)
    (block_time_offset_seconds : Int)
    (allow_blocks_with_same_timestamp : Bool)
    (timestamp : Option Nat) :
    Except ProviderError (Nat × Option Int) :=
  let first : Except ProviderError (Nat × Option Int) :=
    match timestamp with
    | some t =>
        if t < latest_timestamp then
          Except.error (ProviderError.timestampLowerThanPrevious t latest_timestamp)
        else
          Except.ok (t, some ((t : Int) - current_timestamp))
    | none =>
        match sticky_next_block_timestamp with
        | some next =>
            Except.ok (next, some ((next : Int) - current_timestamp))
        | none =>
            Except.ok ((current_timestamp + block_time_offset_seconds).toNat,
              (none : Option Int))
  match first with
  | Except.error e => Except.error e
  | Except.ok (block_timestamp, new_offset) =>
    let timestamp_needs_increase :=
      block_timestamp = latest_timestamp && !allow_blocks_with_same_timestamp
    if timestamp_needs_increase then
      let new_offset :=
        if new_offset.isNone then some (block_time_offset_seconds + 1) else new_offset
      Except.ok (block_timestamp + 1, new_offset)
    else
      Except.ok (block_timestamp, new_offset)

/-! ## Association-list maps

`BTreeMap` and the `lru` crate's cache are external collaborators; they are
modelled as association lists.  `ainsert` replaces any existing binding, as
`BTreeMap::insert` and `LruCache::push` do. -/

/-- First binding of key `k`, or `none`. -/
def alookup {α β : Type} [DecidableEq α] (k : α) : List (α × β) → Option β
  | [] => none
  | (k', v) :: rest => if k' = k then some v else alookup k rest

/-- Remove every binding of key `k`. -/
def aerase {α β : Type} [DecidableEq α] (k : α) (l : List (α × β)) : List (α × β) :=
  l.filter (fun kv => kv.1 ≠ k)

/-- Insert binding `k ↦ v`, replacing any existing binding of `k`. -/
def ainsert {α β : Type} [DecidableEq α] (k : α) (v : β) (l : List (α × β)) :
    List (α × β) :=
  (k, v) :: aerase k l

/-! ## EVM state

Modelled from the spec: the `SyncState` trait lives in `edr_evm::state`, whose
sources are not included.  Per spec §3, a state snapshot is a map
`Address → AccountInfo` plus a map `(Address, U256) → U256` of storage slots;
the slot setter returns the previous value of the slot (default zero). -/

/-- `KECCAK_EMPTY`, the code hash of an empty account (opaque token). -/
def KECCAK_EMPTY : Nat := 0

/-- `AccountInfo {balance, nonce, code_hash, code}` with bytecode as an
opaque token. -/
structure AccountInfo where
  balance : Nat
  nonce : Nat
  code_hash : Nat
  code : Option Nat
  deriving DecidableEq

/-- A logically immutable EVM state snapshot (spec §3, entity *State
Snapshot*). -/
structure EvmState where
  accounts : List (Nat × AccountInfo)
  storage : List ((Nat × Nat) × Nat)
  codes : List (Nat × Nat)
  deriving DecidableEq

/-- Current value of a storage slot (zero when absent). -/
def EvmState.storage_slot (s : EvmState) (address index : Nat) : Nat :=
  (alookup (address, index) s.storage).getD 0

/-- Modelled from the spec: the state's slot setter; writes `value` into the
slot and returns the slot's previous value. -/
def EvmState.set_account_storage_slot (s : EvmState) (address index value : Nat) :
    Nat × EvmState :=
  (s.storage_slot address index,
   { s with storage := ainsert (address, index) value s.storage })

/-- `StateRef::basic`. -/
def EvmState.basic (s : EvmState) (address : Nat) : Option AccountInfo :=
  alookup address s.accounts

/-- `StateRef::code_by_hash` (opaque bytecode token, zero when unknown). -/
def EvmState.code_by_hash (s : EvmState) (code_hash : Nat) : Nat :=
  (alookup code_hash s.codes).getD 0

/-! ## Irregular state -/

/-- revm's `StorageSlot { previous_or_original_value, present_value }`. -/
structure StorageSlot where
  previous_or_original_value : Nat
  present_value : Nat
  deriving DecidableEq

/-- `StorageSlot::new_changed(old, new)`. -/
def StorageSlot.new_changed (old_value new_value : Nat) : StorageSlot :=
  ⟨old_value, new_value⟩

/-- One entry of a `StateDiff` (spec §3: diff is an ordered sequence of
account / storage change entries). -/
inductive StateDiffEntry where
  | account (address : Nat) (info : AccountInfo)
  | storage (address index : Nat) (slot : StorageSlot) (info : Option AccountInfo)
  deriving DecidableEq

/-- `StateOverride { state_root, diff }`. -/
structure StateOverride where
  state_root : Nat
  diff : List StateDiffEntry
  deriving DecidableEq

/-- `StateOverride::with_state_root`. -/
def StateOverride.with_state_root (root : Nat) : StateOverride :=
  ⟨root, []⟩

/-- `IrregularState`: per-block-number table of overrides (spec §3, §4.4). -/
def IrregularState : Type := List (Nat × StateOverride)

instance : DecidableEq IrregularState := by
  unfold IrregularState; infer_instance

/-- `state_override_at_block_number(n).or_insert_with(StateOverride::with_state_root(root))
.diff.apply_storage_change(address, index, slot, info)`: fetch or create the
override for `block_number`, then append a storage-change entry to its diff. -/
def IrregularState.apply_storage_change (irr : IrregularState) (block_number : Nat)
    (root : Nat) (address index : Nat) (slot : StorageSlot)
    (info : Option AccountInfo) : IrregularState :=
  let ov := (alookup block_number irr).getD (StateOverride.with_state_root root)
  ainsert block_number
    { ov with diff := ov.diff ++ [StateDiffEntry.storage address index slot info] } irr

/-! ## Filters and subscriptions -/

/-- `FilterData` with criteria, log outputs, block hashes and transaction
hashes as opaque tokens. -/
inductive FilterData where
  | logs (criteria : Nat) (accumulated : List Nat)
  | newHeads (block_hashes : List Nat)
  | newPendingTransactions (tx_hashes : List Nat)
  deriving DecidableEq

/-- A filter registry entry.  `Filter::has_expired` is external (filter.rs is
not under src); per spec §4.7 only non-subscription filters expire, after an
implementation-defined TTL, abstracted here as the `expired` flag. -/
structure Filter where
  data : FilterData
  is_subscription : Bool
  expired : Bool
  deriving DecidableEq

/-- Modelled from the spec: `Filter::has_expired`; non-subscription filters
are eligible for expiry (spec §4.7). -/
def Filter.has_expired (f : Filter) : Bool :=
  !f.is_subscription && f.expired

/-- `SubscriptionEventData`. -/
inductive SubscriptionEventData where
  | logs (outputs : List Nat)
  | newHeads (block_hash : Nat)
  | newPendingTransactions (tx_hash : Nat)
  deriving DecidableEq

/-- `SubscriptionEvent { filter_id, result }` handed to the subscriber
callback. -/
structure SubscriptionEvent where
  filter_id : Nat
  result : SubscriptionEventData
  deriving DecidableEq

/-! ## Snapshots and the provider -/

/-- `Snapshot` (snapshot.rs / spec §3): the captured mutable provider state
plus the wall-clock anchor `time` (an `Instant`, modelled in milliseconds so
that `Duration::as_secs` truncation is observable). -/
structure Snapshot where
  block_number : Nat
  block_number_to_state_id : List (Nat × Nat)
  block_time_offset_seconds : Int
  coinbase : Nat
  irregular_state : IrregularState
  mem_pool : List Nat
  next_block_base_fee_per_gas : Option Nat
  next_block_timestamp : Option Nat
  prev_randao_generator : Nat
  time : Nat
  deriving DecidableEq

/-- The `ProviderData` state engine.  The blockchain facade is modelled as the
list of block timestamps indexed by height (genesis first, always non-empty);
the mempool as the list of pending transaction hashes; the prev-randao
generator as a seed counter; the filter `HashMap` as an association list whose
order is the map's (unspecified) iteration order. -/
structure ProviderData where
  spec_id : Nat
  blockchain : List Nat
  irregular_state : IrregularState
  mem_pool : List Nat
  beneficiary : Nat
  min_gas_price : Nat
  prev_randao_generator : Nat
  block_time_offset_seconds : Int
  fork_block_number : Option Nat
  is_auto_mining : Bool
  next_block_base_fee_per_gas : Option Nat
  next_block_timestamp : Option Nat
  next_snapshot_id : Nat
  snapshots : List (Nat × Snapshot)
  allow_blocks_with_same_timestamp : Bool
  filters : List (Nat × Filter)
  last_filter_id : Nat
  block_state_cache : List (Nat × EvmState)
  current_state_id : Nat
  block_number_to_state_id : List (Nat × Nat)
  deriving DecidableEq

/-- `Blockchain::last_block_number`: height of the chain tip. -/
def ProviderData.last_block_number (pd : ProviderData) : Nat :=
  pd.blockchain.length - 1

/-- Timestamp of the latest block. -/
def last_block_timestamp (chain : List Nat) : Nat :=
  (chain.getLast?).getD 0

/-- `Blockchain::insert_block` restricted to the header datum the model
tracks (the timestamp): append a block at the next height. -/
def insert_block (chain : List Nat) (block_timestamp : Nat) : List Nat :=
  chain ++ [block_timestamp]

/-- `Blockchain::revert_to_block(n)`: drop every block above height `n`
(spec §4.8 step 3). -/
def revert_to_block (chain : List Nat) (block_number : Nat) : List Nat :=
  chain.take (block_number + 1)

/-- Modelled from the spec: `Blockchain::reserve_blocks(count, interval)`
(spec §4.6) appends `count` conceptually-empty blocks; the synthesized
placeholder headers step the timestamp by `interval` from the block before
the span. -/
def reserve_blocks (chain : List Nat) (count interval : Nat) : List Nat :=
  chain ++ (List.range count).map (fun i => last_block_timestamp chain + (i + 1) * interval)

/-- `RandomHashGenerator::next_value`: deterministic stream, modelled as a
seed counter returning the current value and the advanced generator. -/
def RandomHashGenerator.next_value (g : Nat) : Nat × Nat :=
  (g, g + 1)

/-- `ProviderData::make_snapshot` (data.rs): capture the mutable state under
the next snapshot id, anchored at the current `Instant` (`now`, ms). -/
def ProviderData.make_snapshot (pd : ProviderData) (now : Nat) : Nat × ProviderData :=
  let id := pd.next_snapshot_id
  let snapshot : Snapshot :=
    { block_number := pd.last_block_number
      block_number_to_state_id := pd.block_number_to_state_id
      block_time_offset_seconds := pd.block_time_offset_seconds
      coinbase := pd.beneficiary
      irregular_state := pd.irregular_state
      mem_pool := pd.mem_pool
      next_block_base_fee_per_gas := pd.next_block_base_fee_per_gas
      next_block_timestamp := pd.next_block_timestamp
      prev_randao_generator := pd.prev_randao_generator
      time := now }
  (id, { pd with
          next_snapshot_id := id + 1
          snapshots := ainsert id snapshot pd.snapshots })

/-- `ProviderData::revert_to_snapshot` (data.rs).  `split_off(&snapshot_id)`
moves every snapshot with id ≥ `snapshot_id` out of the store; if the target
is among them its fields are restored and the new time offset is
`snapshot.offset + (now − snapshot.time).as_secs()`; otherwise the call
returns `false` (with the splitting already performed). -/
def ProviderData.revert_to_snapshot (pd : ProviderData) (now : Nat)
    (snapshot_id : Nat) : ProviderData × Bool :=
  let kept := pd.snapshots.filter (fun kv => kv.1 < snapshot_id)
  let removed_snapshots := pd.snapshots.filter (fun kv => snapshot_id ≤ kv.1)
  match alookup snapshot_id removed_snapshots with
  | some snapshot =>
      ({ pd with
          snapshots := kept
          block_number_to_state_id := snapshot.block_number_to_state_id
          block_time_offset_seconds :=
            snapshot.block_time_offset_seconds + ((now - snapshot.time) / 1000 : Nat)
          beneficiary := snapshot.coinbase
          blockchain := revert_to_block pd.blockchain snapshot.block_number
          irregular_state := snapshot.irregular_state
          mem_pool := snapshot.mem_pool
          next_block_base_fee_per_gas := snapshot.next_block_base_fee_per_gas
          next_block_timestamp := snapshot.next_block_timestamp
          prev_randao_generator := snapshot.prev_randao_generator }, true)
  | none => ({ pd with snapshots := kept }, false)

/-! ## State cache -/

/-- `ProviderData::add_state_to_cache`: mint a fresh `StateId`
(`StateId::increment`: current + 1), push the state into the cache and record
`block_number ↦ id`.  Returns the minted id. -/
def ProviderData.add_state_to_cache (pd : ProviderData) (state : EvmState)
    (block_number : Nat) : Nat × ProviderData :=
  let state_id := pd.current_state_id + 1
  (state_id,
   { pd with
      current_state_id := state_id
      block_state_cache := ainsert state_id state pd.block_state_cache
      block_number_to_state_id := ainsert block_number state_id pd.block_number_to_state_id })

/-- `ProviderData::get_or_compute_state`: consult the block-number index and
the cache; on a miss, materialize the state for that height via
`Blockchain::state_at_block_number` (oracle `state_at_block_number`) and cache
it under a fresh id.  Also returns the list of state ids minted by the call. -/
def ProviderData.get_or_compute_state (pd : ProviderData)
    (state_at_block_number : Nat → EvmState) (block_number : Nat) :
    EvmState × List Nat × ProviderData :=
  let cached :=
    match alookup block_number pd.block_number_to_state_id with
    | some state_id => alookup state_id pd.block_state_cache
    | none => none
  match cached with
  | some state => (state, [], pd)
  | none =>
      let state := state_at_block_number block_number
      let (state_id, pd') := pd.add_state_to_cache state block_number
      (state, [state_id], pd')

/-! ## Mining

`edr_evm::mine_block` (the EVM interpreter) and `MemPool::update` are external
collaborators; one `MineEnv` carries their behaviour for a single
`mine_and_commit_block` call. -/

/-- The data of a block produced by the EVM miner: its hash, the mined
transactions zipped with their execution results and traces, the post-mining
state and the captured console-log inputs. -/
structure MineBlockResult where
  block_hash : Nat
  transactions : List (Nat × Nat × Nat)
  state : EvmState
  console_log_inputs : List Nat
  deriving DecidableEq

/-- Oracle bundle for one `mine_and_commit_block` call: the wall-clock epoch
seconds, the EVM miner's outcome, the mempool reconciliation outcome
(`MemPool::update`), the bloom test `bloom_contains_log_filter` and
`filter_logs` per criteria, and `Blockchain::state_at_block_number`. -/
structure MineEnv where
  now : Int
  evm : Except ProviderError MineBlockResult
  update_result : Except ProviderError (List Nat)
  bloom_hit : Nat → Bool
  logs_for : Nat → List Nat
  state_at_block_number : Nat → EvmState

/-- `DebugMineBlockResult` restricted to the data the model tracks. -/
structure DebugMineBlockResult where
  block_timestamp : Nat
  block_hash : Nat
  transactions : List (Nat × Nat × Nat)
  console_log_inputs : List Nat
  deriving DecidableEq

/-- The per-commit filter fan-out of `mine_and_commit_block` (data.rs): walk
the filter map in iteration order; log filters consult the bloom and either
push a subscription event or append to the accumulator; new-head filters
likewise; pending-transaction filters are untouched.  Returns the updated
filters and the subscription events in the order they were fired. -/
def notify_filters (env : MineEnv) (block_hash : Nat) :
    List (Nat × Filter) → List (Nat × Filter) × List SubscriptionEvent
  | [] => ([], [])
  | (filter_id, f) :: rest =>
    let (f', events) :=
      match f.data with
      | FilterData.logs criteria accumulated =>
          if env.bloom_hit criteria then
            let filtered_logs := env.logs_for criteria
            if f.is_subscription then
              (f, [⟨filter_id, SubscriptionEventData.logs filtered_logs⟩])
            else
              ({ f with data := FilterData.logs criteria (accumulated ++ filtered_logs) }, [])
          else (f, [])
      | FilterData.newHeads block_hashes =>
          if f.is_subscription then
            (f, [⟨filter_id, SubscriptionEventData.newHeads block_hash⟩])
          else
            ({ f with data := FilterData.newHeads (block_hashes ++ [block_hash]) }, [])
      | FilterData.newPendingTransactions _ => (f, [])
    let (rest', rest_events) := notify_filters env block_hash rest
    ((filter_id, f') :: rest', events ++ rest_events)

/-- `ProviderData::mine_and_commit_block` (data.rs): choose the next
timestamp, advance the prev-randao generator post-Merge, mine (the EVM clones
the current state, so the cache may recompute an entry), store the new offset,
clear the sticky next-base-fee and next-timestamp, insert the block, reconcile
the mempool, fan out to filters, prune expired filters and cache the
post-mining state.  Returns the new engine, the state ids minted, and either
the mining result together with the fired subscription events, or the error
(with the partial mutations that precede it). -/
def ProviderData.mine_and_commit_block (pd : ProviderData) (env : MineEnv)
    (timestamp : Option Nat) :
    ProviderData × List Nat ×
      Except ProviderError (DebugMineBlockResult × List SubscriptionEvent) :=
  match HardhatProvider.next_block_timestamp (last_block_timestamp pd.blockchain) env.now
      pd.next_block_timestamp pd.block_time_offset_seconds
      pd.allow_blocks_with_same_timestamp timestamp with
  | Except.error e => (pd, [], Except.error e)
  | Except.ok (block_timestamp, new_offset) =>
    let pd :=
      if SpecId.MERGE ≤ pd.spec_id then
        { pd with prev_randao_generator :=
            (RandomHashGenerator.next_value pd.prev_randao_generator).2 }
      else pd
    let (_, minted, pd) :=
      pd.get_or_compute_state env.state_at_block_number pd.last_block_number
    match env.evm with
    | Except.error e => (pd, minted, Except.error e)
    | Except.ok mined =>
      let pd :=
        match new_offset with
        | some offset => { pd with block_time_offset_seconds := offset }
        | none => pd
      let pd := { pd with
        next_block_base_fee_per_gas := none
        next_block_timestamp := none }
      let pd := { pd with blockchain := insert_block pd.blockchain block_timestamp }
      match env.update_result with
      | Except.error e => (pd, minted, Except.error e)
      | Except.ok new_pool =>
        let pd := { pd with mem_pool := new_pool }
        let (filters', events) := notify_filters env mined.block_hash pd.filters
        let pd := { pd with filters := filters'.filter (fun kv => !kv.2.has_expired) }
        let (state_id, pd) := pd.add_state_to_cache mined.state pd.last_block_number
        (pd, minted ++ [state_id],
         Except.ok
           ({ block_timestamp
              block_hash := mined.block_hash
              transactions := mined.transactions
              console_log_inputs := mined.console_log_inputs }, events))

/-! ## Bulk mining (`mine_and_commit_blocks`) -/

/-- `MINIMUM_RESERVABLE_BLOCKS` (data.rs). -/
def MINIMUM_RESERVABLE_BLOCKS : Nat := 6

/-- The `mine_block_with_interval` closure of `mine_and_commit_blocks`:
mine one block at `previous_timestamp + interval`, where `previous_timestamp`
is the timestamp of the last block mined so far, and append its result. -/
def mine_block_with_interval (env : MineEnv) (interval : Nat) (pd : ProviderData)
    (mined_blocks : List DebugMineBlockResult) :
    ProviderData × Except ProviderError (List DebugMineBlockResult) :=
  let previous_timestamp :=
    ((mined_blocks.getLast?).map DebugMineBlockResult.block_timestamp).getD 0
  match pd.mine_and_commit_block env (some (previous_timestamp + interval)) with
  | (pd', _, Except.error e) => (pd', Except.error e)
  | (pd', _, Except.ok (r, _)) => (pd', Except.ok (mined_blocks ++ [r]))

/-- The first loop of `mine_and_commit_blocks`: keep mining interval blocks
while fewer than `number_of_blocks` are mined (encoded by the remaining
`fuel = number_of_blocks − mined`) and the mempool still has pending
transactions.  Returns the engine, the next oracle index, and the accumulated
results. -/
def mine_while_pending (envs : Nat → MineEnv) (interval : Nat) :
    Nat → Nat → ProviderData → List DebugMineBlockResult →
    ProviderData × Nat × Except ProviderError (List DebugMineBlockResult)
  | 0, k, pd, mined_blocks => (pd, k, Except.ok mined_blocks)
  | fuel + 1, k, pd, mined_blocks =>
    if pd.mem_pool.isEmpty then (pd, k, Except.ok mined_blocks)
    else
      match mine_block_with_interval (envs k) interval pd mined_blocks with
      | (pd', Except.error e) => (pd', k + 1, Except.error e)
      | (pd', Except.ok mined_blocks') =>
          mine_while_pending envs interval fuel (k + 1) pd' mined_blocks'

/-- The one-by-one tail of `mine_and_commit_blocks` (`remaining <
MINIMUM_RESERVABLE_BLOCKS`): mine `count` more interval blocks. -/
def mine_remaining (envs : Nat → MineEnv) (interval : Nat) :
    Nat → Nat → ProviderData → List DebugMineBlockResult →
    ProviderData × Nat × Except ProviderError (List DebugMineBlockResult)
  | 0, k, pd, mined_blocks => (pd, k, Except.ok mined_blocks)
  | count + 1, k, pd, mined_blocks =>
    match mine_block_with_interval (envs k) interval pd mined_blocks with
    | (pd', Except.error e) => (pd', k + 1, Except.error e)
    | (pd', Except.ok mined_blocks') =>
        mine_remaining envs interval count (k + 1) pd' mined_blocks'

/-- `ProviderData::mine_and_commit_blocks(number_of_blocks, interval)`
(data.rs): mine the first block with no interval; keep mining interval blocks
while transactions are pending; mine one bracketing block if any remain; then
either mine the remainder one by one (when fewer than
`MINIMUM_RESERVABLE_BLOCKS`) or snapshot the current state into the cache,
reserve `remaining − 1` blocks and mine one final bracketing block. -/
def ProviderData.mine_and_commit_blocks (pd₀ : ProviderData) (envs : Nat → MineEnv)
    (number_of_blocks interval : Nat) :
    ProviderData × Except ProviderError (List DebugMineBlockResult) :=
  if number_of_blocks = 0 then (pd₀, Except.ok [])
  else
    match pd₀.mine_and_commit_block (envs 0) none with
    | (pd, _, Except.error e) => (pd, Except.error e)
    | (pd, _, Except.ok (r₀, _)) =>
      match mine_while_pending envs interval (number_of_blocks - 1) 1 pd [r₀] with
      | (pd, _, Except.error e) => (pd, Except.error e)
      | (pd, k, Except.ok mined_blocks) =>
        let step2 :=
          if mined_blocks.length < number_of_blocks then
            match mine_block_with_interval (envs k) interval pd mined_blocks with
            | (pd', Except.error e) => (pd', k + 1, Except.error e)
            | (pd', Except.ok mined_blocks') => (pd', k + 1, Except.ok mined_blocks')
          else (pd, k, Except.ok mined_blocks)
        match step2 with
        | (pd, _, Except.error e) => (pd, Except.error e)
        | (pd, k, Except.ok mined_blocks) =>
          let remaining_blocks := number_of_blocks - mined_blocks.length
          if remaining_blocks < MINIMUM_RESERVABLE_BLOCKS then
            match mine_remaining envs interval remaining_blocks k pd mined_blocks with
            | (pd, _, Except.error e) => (pd, Except.error e)
            | (pd, _, Except.ok mined_blocks) => (pd, Except.ok mined_blocks)
          else
            let (current_state, _, pd) :=
              pd.get_or_compute_state (envs k).state_at_block_number pd.last_block_number
            let pd := { pd with
              blockchain := reserve_blocks pd.blockchain (remaining_blocks - 1) interval }
            let (_, pd) := pd.add_state_to_cache current_state pd.last_block_number
            let previous_timestamp := last_block_timestamp pd.blockchain
            match pd.mine_and_commit_block (envs k) (some (previous_timestamp + interval)) with
            | (pd, _, Except.error e) => (pd, Except.error e)
            | (pd, _, Except.ok (r, _)) => (pd, Except.ok (mined_blocks ++ [r]))

/-! ## `send_transaction` -/

/-- `SendTransactionResult` with the execution result and trace of the
submitted transaction (present when auto-mined). -/
structure SendTransactionResult where
  transaction_hash : Nat
  transaction_result : Option (Nat × Nat)
  mining_results : List DebugMineBlockResult
  deriving DecidableEq

/-- Oracle bundle for one `send_transaction` call: the state materializer,
the outcome of `validate_auto_mine_transaction`, the outcome of
`MemPool::add_transaction`, the `Instant` (ms) at `make_snapshot` and at any
`revert_to_snapshot`, and one `MineEnv` per mining iteration. -/
structure SendEnv where
  state_at_block_number : Nat → EvmState
  validate : Option ProviderError
  admission : Option ProviderError
  snapshot_time : Nat
  revert_time : Nat
  mines : Nat → MineEnv

/-- The `add_pending_transaction` fan-out: notify / accumulate every
pending-transaction filter in iteration order. -/
def notify_pending_tx_filters (tx_hash : Nat) :
    List (Nat × Filter) → List (Nat × Filter) × List SubscriptionEvent
  | [] => ([], [])
  | (filter_id, f) :: rest =>
    let (f', events) :=
      match f.data with
      | FilterData.newPendingTransactions tx_hashes =>
          if f.is_subscription then
            (f, [⟨filter_id, SubscriptionEventData.newPendingTransactions tx_hash⟩])
          else
            ({ f with data := FilterData.newPendingTransactions (tx_hashes ++ [tx_hash]) }, [])
      | _ => (f, [])
    let (rest', rest_events) := notify_pending_tx_filters tx_hash rest
    ((filter_id, f') :: rest', events ++ rest_events)

/-- `ProviderData::add_pending_transaction`: fetch the current state, ask the
mempool for admission of the transaction (oracle `admission`; on success the hash joins
the pending pool), then fan out to pending-transaction filters. -/
def ProviderData.add_pending_transaction (pd : ProviderData) (env : SendEnv)
    (tx_hash : Nat) : ProviderData × Except ProviderError Nat :=
  let (_, _, pd) :=
    pd.get_or_compute_state env.state_at_block_number pd.last_block_number
  match env.admission with
  | some e => (pd, Except.error e)
  | none =>
      let pd := { pd with mem_pool := pd.mem_pool ++ [tx_hash] }
      let (filters', _) := notify_pending_tx_filters tx_hash pd.filters
      (({ pd with filters := filters' }), Except.ok tx_hash)

/-- `izip!(transactions, results, traces).find_map(...)`: the execution
result and trace paired with `tx_hash` in a mined block, if present. -/
def find_transaction_result (transactions : List (Nat × Nat × Nat)) (tx_hash : Nat) :
    Option (Nat × Nat) :=
  (transactions.find? (fun t => t.1 = tx_hash)).map (fun t => t.2)

/-- The auto-mine loop of `send_transaction`: mine and commit until the
submitted transaction appears in a block; on a mining error revert to the
throwaway snapshot and return the error.  `none` means the given fuel was
exhausted before the loop terminated.  On success returns the engine, the
(result, trace) pair, the accumulated mining results and the next oracle
index. -/
def auto_mine_loop (env : SendEnv) (tx_hash snapshot_id : Nat) :
    Nat → Nat → ProviderData → List DebugMineBlockResult →
    Option (ProviderData ×
      Except ProviderError ((Nat × Nat) × List DebugMineBlockResult × Nat))
  | 0, _, _, _ => none
  | fuel + 1, k, pd, acc =>
    match pd.mine_and_commit_block (env.mines k) none with
    | (pd', _, Except.error e) =>
        some ((pd'.revert_to_snapshot env.revert_time snapshot_id).1, Except.error e)
    | (pd', _, Except.ok (r, _)) =>
        let found := find_transaction_result r.transactions tx_hash
        let acc := acc ++ [r]
        match found with
        | some p => some (pd', Except.ok (p, acc, k + 1))
        | none => auto_mine_loop env tx_hash snapshot_id fuel (k + 1) pd' acc

/-- The drain loop of `send_transaction`: keep mining while the mempool has
pending transactions; on a mining error revert to the throwaway snapshot.
`none` means the fuel ran out first. -/
def drain_mem_pool_loop (env : SendEnv) (snapshot_id : Nat) :
    Nat → Nat → ProviderData → List DebugMineBlockResult →
    Option (ProviderData × Except ProviderError (List DebugMineBlockResult))
  | 0, _, pd, acc =>
      if pd.mem_pool.isEmpty then some (pd, Except.ok acc) else none
  | fuel + 1, k, pd, acc =>
    if pd.mem_pool.isEmpty then some (pd, Except.ok acc)
    else
      match pd.mine_and_commit_block (env.mines k) none with
      | (pd', _, Except.error e) =>
          some ((pd'.revert_to_snapshot env.revert_time snapshot_id).1, Except.error e)
      | (pd', _, Except.ok (r, _)) =>
          drain_mem_pool_loop env snapshot_id fuel (k + 1) pd' (acc ++ [r])

/-- `ProviderData::send_transaction` (data.rs).  With auto-mining on:
validate, take a throwaway snapshot, submit to the mempool (reverting on
error), mine and commit until the transaction appears in a block, drain the
remaining mempool (reverting on any mining error), then discard the snapshot.
With auto-mining off: submit only.  `none` means the mining loops did not
terminate within `fuel` iterations. -/
def ProviderData.send_transaction (pd : ProviderData) (env : SendEnv)
    (tx_hash : Nat) (fuel : Nat) :
    Option (ProviderData × Except ProviderError SendTransactionResult) :=
  if pd.is_auto_mining then
    let (_, _, pd) :=
      pd.get_or_compute_state env.state_at_block_number pd.last_block_number
    match env.validate with
    | some e => some (pd, Except.error e)
    | none =>
      let (snapshot_id, pd) := pd.make_snapshot env.snapshot_time
      match pd.add_pending_transaction env tx_hash with
      | (pd, Except.error e) =>
          some ((pd.revert_to_snapshot env.revert_time snapshot_id).1, Except.error e)
      | (pd, Except.ok transaction_hash) =>
        match auto_mine_loop env tx_hash snapshot_id fuel 0 pd [] with
        | none => none
        | some (pd, Except.error e) => some (pd, Except.error e)
        | some (pd, Except.ok (transaction_result, acc, k)) =>
          match drain_mem_pool_loop env snapshot_id fuel k pd acc with
          | none => none
          | some (pd, Except.error e) => some (pd, Except.error e)
          | some (pd, Except.ok mining_results) =>
            let pd := { pd with snapshots := aerase snapshot_id pd.snapshots }
            some (pd, Except.ok
              { transaction_hash
                transaction_result := some transaction_result
                mining_results })
  else
    match pd.add_pending_transaction env tx_hash with
    | (pd, Except.error e) => some (pd, Except.error e)
    | (pd, Except.ok transaction_hash) =>
        some (pd, Except.ok
          { transaction_hash
            transaction_result := none
            mining_results := [] })

/-! ## Admin state mutation: `set_account_storage_slot` -/

/-- `ProviderData::set_account_storage_slot` (data.rs): clone the current
state, invoke the state's slot setter twice — the first call discards its
return value, the second captures `old_value` — record a
`StorageSlot::new_changed(old_value, value)` storage change in the irregular
state at the current block number (creating the override with the recomputed
state root `state_root`), and cache the modified state.  `state_root` is the
abstract root computation (a collaborator). -/
def ProviderData.set_account_storage_slot (pd : ProviderData)
    (state_at_block_number : Nat → EvmState) (state_root : EvmState → Nat)
    (address index value : Nat) : ProviderData × List Nat :=
  let (state, minted, pd) :=
    pd.get_or_compute_state state_at_block_number pd.last_block_number
  let modified_state := state
  let (_, modified_state) := modified_state.set_account_storage_slot address index value
  let (old_value, modified_state) :=
    modified_state.set_account_storage_slot address index value
  let slot := StorageSlot.new_changed old_value value
  let account_info :=
    (modified_state.basic address).map (fun info =>
      if info.code_hash ≠ KECCAK_EMPTY then
        { info with code := some (modified_state.code_by_hash info.code_hash) }
      else info)
  let root := state_root modified_state
  let block_number := pd.last_block_number
  let pd := { pd with
    irregular_state :=
      pd.irregular_state.apply_storage_change block_number root address index slot
        account_info }
  let (state_id, pd) := pd.add_state_to_cache modified_state block_number
  (pd, minted ++ [state_id])

/-! ## Gas estimation -/

/-- revm's `ExecutionResult`, restricted to the discriminant and the data the
estimator inspects. -/
inductive ExecutionResult where
  | success (gas_used : Nat)
  | revert (output : Nat)
  | halt (reason : Nat)
  deriving DecidableEq

/-- `TransactionFailure::revert / halt` with output, reason and trace as
opaque tokens. -/
inductive TransactionFailure where
  | revert (output transaction_hash trace : Nat)
  | halt (reason transaction_hash trace : Nat)
  deriving DecidableEq

/-- `EstimateGasFailure { console_log_inputs, transaction_failure }`. -/
structure EstimateGasFailure where
  console_log_inputs : List Nat
  transaction_failure : TransactionFailure
  deriving DecidableEq

/-- Oracle bundle for `estimate_gas`: the outcome of the initial `run_call`,
the console logs and trace it collected, and the outcome of
`gas::check_gas_limit` per candidate gas limit. -/
structure EstimateGasEnv where
  initial_run : ExecutionResult
  console_logs : List Nat
  trace : Nat
  check : Nat → Bool

/-- Modelled from the spec: `gas::binary_search_estimation` (gas.rs is not
under src; spec §4.10 step 4): integer bisection on
`[lower_bound, upper_bound]`, shrinking to the half containing the minimum
successful limit, returning `upper_bound` when `lower_bound + 1 ≥
upper_bound`. -/
def binary_search_estimation (check : Nat → Bool) (lower_bound upper_bound : Nat) :
    Nat :=
  if upper_bound ≤ lower_bound + 1 then upper_bound
  else
    let mid := (lower_bound + upper_bound) / 2
    if check mid then binary_search_estimation check lower_bound mid
    else binary_search_estimation check mid upper_bound
termination_by upper_bound - lower_bound
decreasing_by all_goals omega

/-- `ProviderData::estimate_gas` (data.rs): run the call once; classify a
revert or halt into an `EstimateGasFailure` carrying the console logs; raise
the successful run's gas to at least `minimum_cost + 1`; re-check at that
limit and return it on success, falling back to the binary search up to the
block gas limit otherwise. -/
def estimate_gas (env : EstimateGasEnv) (minimum_cost transaction_hash
    header_gas_limit : Nat) : Except EstimateGasFailure Nat :=
  match env.initial_run with
  | ExecutionResult.revert output =>
      Except.error ⟨env.console_logs,
        TransactionFailure.revert output transaction_hash env.trace⟩
  | ExecutionResult.halt reason =>
      Except.error ⟨env.console_logs,
        TransactionFailure.halt reason transaction_hash env.trace⟩
  | ExecutionResult.success gas_used =>
      let initial_estimation :=
        if gas_used ≤ minimum_cost then minimum_cost + 1 else gas_used
      if env.check initial_estimation then Except.ok initial_estimation
      else Except.ok (binary_search_estimation env.check initial_estimation
        header_gas_limit)

/-! ## Fee history -/

/-- `BlockSpec`, restricted to the tags the model resolves. -/
inductive BlockSpec where
  | number (n : Nat)
  | earliest
  | latest
  | pending
  | finalized
  | safe
  deriving DecidableEq

/-- `ProviderData::block_by_block_spec`, at the granularity of block numbers:
`none` for the pending tag; an error for an unknown number or for
finalized/safe pre-Merge (on a contiguous local chain a block exists iff its
number is at most the latest). -/
def ProviderData.block_by_block_spec (pd : ProviderData) (block_spec : BlockSpec) :
    Except ProviderError (Option Nat) :=
  match block_spec with
  | BlockSpec.number n =>
      if n ≤ pd.last_block_number then Except.ok (some n)
      else Except.error (ProviderError.invalidBlockNumberOrHash pd.last_block_number)
  | BlockSpec.earliest => Except.ok (some 0)
  | BlockSpec.finalized =>
      if SpecId.MERGE ≤ pd.spec_id then Except.ok (some pd.last_block_number)
      else Except.error ProviderError.invalidBlockTag
  | BlockSpec.safe =>
      if SpecId.MERGE ≤ pd.spec_id then Except.ok (some pd.last_block_number)
      else Except.error ProviderError.invalidBlockTag
  | BlockSpec.latest => Except.ok (some pd.last_block_number)
  | BlockSpec.pending => Except.ok none

/-- The window arithmetic of `fee_history`; the per-entry numeric contents
(base fees, gas-used ratios, rewards) are abstracted, but the assembly loop's
range `first_local_block..=last_block_number` is retained as the list of
visited block numbers. -/
structure FeeHistoryResult where
  oldest_block : Nat
  local_blocks : List Nat
  deriving DecidableEq

/-- `ProviderData::fee_history` (data.rs): fail `UnmetHardfork` below London;
resolve the newest block number (pending → latest + 1); set
`oldest_block_number` to 0 when `newest < block_count` and to
`newest − block_count + 1` otherwise; `last_block_number = newest + 1`;
delegate the prefix up to the fork point to the remote client when forked;
assemble local entries for `first_local_block..=last_block_number`. -/
def ProviderData.fee_history (pd : ProviderData) (block_count : Nat)
    (newest_block_spec : BlockSpec) : Except ProviderError FeeHistoryResult :=
  if pd.spec_id < SpecId.LONDON then
    Except.error (ProviderError.unmetHardfork pd.spec_id SpecId.LONDON)
  else
    match pd.block_by_block_spec newest_block_spec with
    | Except.error e => Except.error e
    | Except.ok resolved =>
      let latest_block_number := pd.last_block_number
      let pending_block_number := latest_block_number + 1
      let newest_block_number := resolved.getD pending_block_number
      let oldest_block_number :=
        if newest_block_number < block_count then 0
        else newest_block_number - block_count + 1
      let last_block_number := newest_block_number + 1
      let range_includes_remote_blocks : Bool :=
        match pd.fork_block_number with
        | some fork_block_number => decide (oldest_block_number ≤ fork_block_number)
        | none => false
      let first_local_block :=
        if range_includes_remote_blocks then
          min ((pd.fork_block_number).getD 0) last_block_number + 1
        else oldest_block_number
      Except.ok
        { oldest_block := oldest_block_number
          local_blocks :=
            List.range' first_local_block (last_block_number + 1 - first_local_block) }

/-! ## Filter registration and the engine operation language -/

/-- `ProviderData::next_filter_id`: increment `last_filter_id` and return it
(ids start at 1, since `last_filter_id` starts at 0). -/
def ProviderData.next_filter_id (pd : ProviderData) : Nat × ProviderData :=
  let id := pd.last_filter_id + 1
  (id, { pd with last_filter_id := id })

/-- `ProviderData::add_block_filter`: register a new-heads filter under a
fresh id (the initial accumulator contents are irrelevant to the claims and
start empty in the model). -/
def ProviderData.add_block_filter (pd : ProviderData) (is_subscription : Bool) :
    Nat × ProviderData :=
  let (filter_id, pd) := pd.next_filter_id
  (filter_id, { pd with
    filters := pd.filters ++
      [(filter_id, { data := FilterData.newHeads []
                     is_subscription
                     expired := false })] })

/-- `ProviderData::add_log_filter`: register a log filter under a fresh id,
seeded with the logs the blockchain already matched (oracle
`initial_logs`). -/
def ProviderData.add_log_filter (pd : ProviderData) (is_subscription : Bool)
    (criteria : Nat) (initial_logs : List Nat) : Nat × ProviderData :=
  let (filter_id, pd) := pd.next_filter_id
  (filter_id, { pd with
    filters := pd.filters ++
      [(filter_id, { data := FilterData.logs criteria initial_logs
                     is_subscription
                     expired := false })] })

/-- `ProviderData::add_pending_transaction_filter`. -/
def ProviderData.add_pending_transaction_filter (pd : ProviderData)
    (is_subscription : Bool) : Nat × ProviderData :=
  let (filter_id, pd) := pd.next_filter_id
  (filter_id, { pd with
    filters := pd.filters ++
      [(filter_id, { data := FilterData.newPendingTransactions []
                     is_subscription
                     expired := false })] })

/-- `ProviderData::remove_filter_impl`: remove the filter only when its
subscription flag matches the requested kind. -/
def ProviderData.remove_filter_impl (pd : ProviderData) (is_subscription : Bool)
    (filter_id : Nat) : ProviderData × Bool :=
  match alookup filter_id pd.filters with
  | some f =>
      if f.is_subscription = is_subscription then
        ({ pd with filters := aerase filter_id pd.filters }, true)
      else (pd, false)
  | none => (pd, false)

/-- The mutating engine operations the id-monotonicity claim ranges over;
each constructor carries the oracle data the operation consumes. -/
inductive EngineOp where
  | addBlockFilter (is_subscription : Bool)
  | addLogFilter (is_subscription : Bool) (criteria : Nat) (initial_logs : List Nat)
  | addPendingTransactionFilter (is_subscription : Bool)
  | removeFilter (is_subscription : Bool) (filter_id : Nat)
  | makeSnapshot (now : Nat)
  | revertToSnapshot (now : Nat) (snapshot_id : Nat)
  | mineAndCommitBlock (env : MineEnv) (timestamp : Option Nat)
  | setAccountStorageSlot (state_at_block_number : Nat → EvmState)
      (state_root : EvmState → Nat) (address index value : Nat)
  | increaseBlockTime (seconds : Nat)

/-- The ids an operation mints, by kind. -/
structure IdTraces where
  filter_ids : List Nat
  snapshot_ids : List Nat
  state_ids : List Nat

/-- One step of the engine: apply the operation and report the minted ids. -/
def ProviderData.apply_op (pd : ProviderData) : EngineOp → ProviderData × IdTraces
  | EngineOp.addBlockFilter is_subscription =>
      let (filter_id, pd) := pd.add_block_filter is_subscription
      (pd, ⟨[filter_id], [], []⟩)
  | EngineOp.addLogFilter is_subscription criteria initial_logs =>
      let (filter_id, pd) := pd.add_log_filter is_subscription criteria initial_logs
      (pd, ⟨[filter_id], [], []⟩)
  | EngineOp.addPendingTransactionFilter is_subscription =>
      let (filter_id, pd) := pd.add_pending_transaction_filter is_subscription
      (pd, ⟨[filter_id], [], []⟩)
  | EngineOp.removeFilter is_subscription filter_id =>
      ((pd.remove_filter_impl is_subscription filter_id).1, ⟨[], [], []⟩)
  | EngineOp.makeSnapshot now =>
      let (snapshot_id, pd) := pd.make_snapshot now
      (pd, ⟨[], [snapshot_id], []⟩)
  | EngineOp.revertToSnapshot now snapshot_id =>
      ((pd.revert_to_snapshot now snapshot_id).1, ⟨[], [], []⟩)
  | EngineOp.mineAndCommitBlock env timestamp =>
      let (pd, minted, _) := pd.mine_and_commit_block env timestamp
      (pd, ⟨[], [], minted⟩)
  | EngineOp.setAccountStorageSlot state_at_block_number state_root address index
      value =>
      let (pd, minted) :=
        pd.set_account_storage_slot state_at_block_number state_root address index value
      (pd, ⟨[], [], minted⟩)
  | EngineOp.increaseBlockTime seconds =>
      ({ pd with block_time_offset_seconds :=
          pd.block_time_offset_seconds + (seconds : Int) }, ⟨[], [], []⟩)

/-- Run a sequence of engine operations, concatenating the minted-id
traces. -/
def ProviderData.run_ops (pd : ProviderData) :
    List EngineOp → ProviderData × IdTraces
  | [] => (pd, ⟨[], [], []⟩)
  | op :: ops =>
      let (pd', tr) := pd.apply_op op
      let (pd'', trs) := pd'.run_ops ops
      (pd'', ⟨tr.filter_ids ++ trs.filter_ids,
              tr.snapshot_ids ++ trs.snapshot_ids,
              tr.state_ids ++ trs.state_ids⟩)

/-- A freshly constructed engine (`ProviderData::new`): `last_filter_id = 0`,
`next_snapshot_id = 1` ("start with 1 to mimic Ganache"),
`current_state_id = StateId::default() = 0` with the genesis state cached at
id 0 for block 0.  The remaining fields are the construction parameters. -/
def initial_provider (spec_id : Nat) (genesis_timestamp : Nat)
    (genesis_state : EvmState) (beneficiary min_gas_price : Nat)
    (block_time_offset_seconds : Int) (is_auto_mining : Bool)
    (allow_blocks_with_same_timestamp : Bool)
    (next_block_base_fee_per_gas : Option Nat) (fork_block_number : Option Nat) :
    ProviderData :=
  { spec_id
    blockchain := [genesis_timestamp]
    irregular_state := ([] : List (Nat × StateOverride))
    mem_pool := []
    beneficiary
    min_gas_price
    prev_randao_generator := 0
    block_time_offset_seconds
    fork_block_number
    is_auto_mining
    next_block_base_fee_per_gas
    next_block_timestamp := none
    next_snapshot_id := 1
    snapshots := []
    allow_blocks_with_same_timestamp
    filters := []
    last_filter_id := 0
    block_state_cache := [(0, genesis_state)]
    current_state_id := 0
    block_number_to_state_id := [(0, 0)] }

/-! ## Association-list lemmas -/

theorem alookup_filter {α β : Type} [DecidableEq α] (k : α) (p : α × β → Bool)
    (l : List (α × β)) (hp : ∀ v : β, p (k, v) = true) :
    alookup k (l.filter p) = alookup k l := by
  induction l with
  | nil => rfl
  | cons kv rest ih =>
    obtain ⟨k', v⟩ := kv
    by_cases hk : k' = k
    · subst hk
      rw [List.filter_cons, if_pos (hp v)]
      simp [alookup]
    · rw [List.filter_cons]
      by_cases hpv : p (k', v) = true
      · rw [if_pos hpv]
        simp [alookup, hk, ih]
      · rw [if_neg hpv]
        simp [alookup, hk, ih]

theorem alookup_aerase_ne {α β : Type} [DecidableEq α] (k k' : α) (l : List (α × β))
    (h : k' ≠ k) : alookup k' (aerase k l) = alookup k' l := by
  induction l with
  | nil => rfl
  | cons kv rest ih =>
    obtain ⟨a, v⟩ := kv
    show alookup k' (List.filter _ ((a, v) :: rest)) = _
    rw [List.filter_cons]
    by_cases ha : a = k
    · subst ha
      rw [if_neg (by simp)]
      show _ = if a = k' then some v else alookup k' rest
      rw [if_neg (fun hh => h (Eq.symm hh))]
      exact ih
    · rw [if_pos (by simp [ha])]
      show (if a = k' then some v else alookup k' (aerase k rest))
        = if a = k' then some v else alookup k' rest
      by_cases ha' : a = k'
      · rw [if_pos ha', if_pos ha']
      · rw [if_neg ha', if_neg ha']
        exact ih

theorem alookup_ainsert_self {α β : Type} [DecidableEq α] (k : α) (v : β)
    (l : List (α × β)) : alookup k (ainsert k v l) = some v := by
  simp [ainsert, alookup]

theorem alookup_ainsert_ne {α β : Type} [DecidableEq α] (k k' : α) (v : β)
    (l : List (α × β)) (h : k' ≠ k) :
    alookup k' (ainsert k v l) = alookup k' l := by
  show (if k = k' then some v else alookup k' (aerase k l)) = alookup k' l
  rw [if_neg (fun hh => h (Eq.symm hh))]
  exact alookup_aerase_ne k k' l h

/-! ## Claim C2: timestamp selection for an explicit requested timestamp -/

/-- Helper for unfolding the bump step of `next_block_timestamp` once the
first stage produced `ok`. -/
theorem next_block_timestamp_ok_requested (latest : Nat) (now : Int)
    (sticky : Option Nat) (offset : Int) (allow : Bool) (r : Nat)
    (h : ¬ r < latest) :
    next_block_timestamp latest now sticky offset allow (some r) =
      (if r = latest && !allow then
        Except.ok (r + 1, some ((r : Int) - now))
      else
        Except.ok (r, some ((r : Int) - now))) := by
  by_cases he : r = latest
  · subst he
    cases allow <;> simp [next_block_timestamp, h]
  · cases allow <;> simp [next_block_timestamp, h, he]

/-- **C2 (amended).**  `ProviderData::next_block_timestamp` with an explicit
`requested` timestamp: it fails with `TimestampLowerThanPrevious` exactly when
`requested < latest`; when `requested = latest` and blocks with the same
timestamp are disallowed it *succeeds* with timestamp `requested + 1`;
in every other success case the timestamp is `requested`; in all success
cases the new stored time offset is `requested − now`. -/
theorem next_block_timestamp_requested (latest : Nat) (now : Int)
    (sticky : Option Nat) (offset : Int) (allow : Bool) (r : Nat) :
    (r < latest →
      next_block_timestamp latest now sticky offset allow (some r)
        = Except.error (ProviderError.timestampLowerThanPrevious r latest)) ∧
    (latest ≤ r →
      next_block_timestamp latest now sticky offset allow (some r)
        = Except.ok
            (if r = latest ∧ allow = false then r + 1 else r,
             some ((r : Int) - now))) := by
  constructor
  · intro h
    simp [next_block_timestamp, h]
  · intro h
    rw [next_block_timestamp_ok_requested latest now sticky offset allow r
      (not_lt.mpr h)]
    by_cases he : r = latest
    · subst he; cases allow <;> simp
    · cases allow <;> simp [he]

/-- **C2 witness.**  With `latest = 10`, `now = 4`, same-timestamp blocks
disallowed and `requested = 10`, the call succeeds with timestamp `11` and
new offset `6`. -/
theorem next_block_timestamp_requested_witness :
    next_block_timestamp 10 4 none 0 false (some 10) = Except.ok (11, some 6) := by
  have h := (next_block_timestamp_requested 10 4 none 0 false 10).2 (by decide)
  simpa using h

/-- **C2 counterexample.**  The claim predicts a `TimestampLowerThanPrevious`
failure whenever `requested ≤ latest` unless `requested = latest` with
same-timestamp blocks allowed.  At `latest = 5`, `requested = 5`,
same-timestamp blocks disallowed, the code does not fail at all: it succeeds
with the bumped timestamp `6` (and the success timestamp is not the requested
one either). -/
theorem next_block_timestamp_equal_not_rejected :
    ¬ (∀ (latest : Nat) (now : Int) (sticky : Option Nat) (offset : Int)
         (allow : Bool) (r : Nat),
        r ≤ latest → ¬(r = latest ∧ allow = true) →
        ∃ e, next_block_timestamp latest now sticky offset allow (some r) =
          Except.error e) := by
  intro h
  obtain ⟨e, he⟩ := h 5 3 none 0 false 5 (by decide) (by decide)
  have hok : next_block_timestamp 5 3 none 0 false (some 5) = Except.ok (6, some 2) := by
    have h' := (next_block_timestamp_requested 5 3 none 0 false 5).2 (by decide)
    simpa using h'
  rw [hok] at he
  cases he

/-! ## Claims C3 and C4: snapshot revert -/

/-- Lookup of the revert target inside the `split_off` result. -/
theorem alookup_split_off (snapshot_id : Nat) (l : List (Nat × Snapshot)) :
    alookup snapshot_id (l.filter fun kv => decide (snapshot_id ≤ kv.1)) =
      alookup snapshot_id l := by
  apply alookup_filter
  intro v
  simp

/-- **C3.**  A successful `revert_to_snapshot` naming snapshot `s`, performed
at instant `now` (ms), returns `true`, sets the time offset to `s`'s recorded
offset plus the whole seconds elapsed since `s` was taken, reverts the
blockchain to `s`'s block number and restores mempool, irregular state,
coinbase, next-block base fee, next-block timestamp, prev-randao generator
and the block-number→state-id index from `s`. -/
theorem revert_to_snapshot_restores (pd : ProviderData) (now snapshot_id : Nat)
    (s : Snapshot) (hs : alookup snapshot_id pd.snapshots = some s)
    (_ht : s.time ≤ now) :
    (pd.revert_to_snapshot now snapshot_id).2 = true ∧
    (pd.revert_to_snapshot now snapshot_id).1.block_time_offset_seconds
      = s.block_time_offset_seconds + ((now - s.time) / 1000 : Nat) ∧
    (pd.revert_to_snapshot now snapshot_id).1.blockchain
      = revert_to_block pd.blockchain s.block_number ∧
    (pd.revert_to_snapshot now snapshot_id).1.mem_pool = s.mem_pool ∧
    (pd.revert_to_snapshot now snapshot_id).1.irregular_state = s.irregular_state ∧
    (pd.revert_to_snapshot now snapshot_id).1.beneficiary = s.coinbase ∧
    (pd.revert_to_snapshot now snapshot_id).1.next_block_base_fee_per_gas
      = s.next_block_base_fee_per_gas ∧
    (pd.revert_to_snapshot now snapshot_id).1.next_block_timestamp
      = s.next_block_timestamp ∧
    (pd.revert_to_snapshot now snapshot_id).1.prev_randao_generator
      = s.prev_randao_generator ∧
    (pd.revert_to_snapshot now snapshot_id).1.block_number_to_state_id
      = s.block_number_to_state_id := by
  have hrem := alookup_split_off snapshot_id pd.snapshots
  rw [hs] at hrem
  simp [ProviderData.revert_to_snapshot, hrem]

/-- Concrete engine-state fixtures used by witnesses. -/
def empty_state : EvmState := ⟨[], [], []⟩

/-- A concrete snapshot anchored at instant 0 ms with offset 7. -/
def sample_snapshot : Snapshot :=
  { block_number := 0
    block_number_to_state_id := [(0, 0)]
    block_time_offset_seconds := 7
    coinbase := 0
    irregular_state := ([] : List (Nat × StateOverride))
    mem_pool := []
    next_block_base_fee_per_gas := none
    next_block_timestamp := none
    prev_randao_generator := 0
    time := 0 }

/-- A concrete engine holding only snapshot id 2. -/
def c4_provider : ProviderData :=
  { initial_provider 15 100 empty_state 0 0 0 false false none none with
      snapshots := [(2, sample_snapshot)] }

/-- A concrete engine holding only snapshot id 1. -/
def c3_provider : ProviderData :=
  { initial_provider 15 100 empty_state 0 0 0 false false none none with
      snapshots := [(1, sample_snapshot)] }

/-- **C3 witness.**  Reverting `c3_provider` to snapshot 1 at instant 2500 ms
succeeds and reconstructs the offset as `7 + ⌊2.5 s⌋ = 9`. -/
theorem revert_to_snapshot_restores_witness :
    (c3_provider.revert_to_snapshot 2500 1).2 = true ∧
    (c3_provider.revert_to_snapshot 2500 1).1.block_time_offset_seconds = 9 := by
  have h := revert_to_snapshot_restores c3_provider 2500 1 sample_snapshot rfl
    (by decide)
  exact ⟨h.1, by rw [h.2.1]; rfl⟩

/-- **C4 (amended).**  `revert_to_snapshot` with an id absent from the store
returns `false` and leaves every engine field unchanged *except* the snapshot
store itself: `split_off` has already discarded every snapshot with id ≥ the
given id, so only the snapshots with smaller ids survive. -/
theorem revert_to_snapshot_absent (pd : ProviderData) (now snapshot_id : Nat)
    (h : alookup snapshot_id pd.snapshots = none) :
    pd.revert_to_snapshot now snapshot_id =
      ({ pd with snapshots := pd.snapshots.filter fun kv => decide (kv.1 < snapshot_id) },
       false) := by
  have hrem := alookup_split_off snapshot_id pd.snapshots
  rw [h] at hrem
  simp [ProviderData.revert_to_snapshot, hrem]

/-- **C4 witness.**  Reverting `c3_provider` (which holds only snapshot 1) to
the absent id 5 returns `false` and keeps snapshot 1. -/
theorem revert_to_snapshot_absent_witness :
    c3_provider.revert_to_snapshot 0 5 =
      ({ c3_provider with snapshots := [(1, sample_snapshot)] }, false) := by
  rw [revert_to_snapshot_absent c3_provider 0 5 rfl]
  decide

/-- **C4 counterexample.**  The claim says a failed revert leaves the set of
stored snapshots (including ids greater than the target) unchanged.  On
`c4_provider`, whose only snapshot has id 2, `revert_to_snapshot(1)` returns
`false` yet discards snapshot 2: the store is emptied. -/
theorem revert_absent_discards_newer_snapshots :
    alookup 1 c4_provider.snapshots = none ∧
    (c4_provider.revert_to_snapshot 0 1).2 = false ∧
    (c4_provider.revert_to_snapshot 0 1).1.snapshots = [] ∧
    c4_provider.snapshots ≠ [] := by
  refine ⟨rfl, rfl, rfl, ?_⟩
  decide

/-! ## Claim C5: gas estimation -/

/-- **C5.**  `estimate_gas`: a revert or halt of the initial run yields an
`EstimateGasFailure` carrying the decoded console-log inputs and the
structured `TransactionFailure`; a successful run sets the initial estimation
to `max(gas used, minimum cost + 1)`, and if the re-execution check at that
limit succeeds, exactly that initial estimation is returned. -/
theorem estimate_gas_spec (env : EstimateGasEnv)
    (minimum_cost transaction_hash header_gas_limit : Nat) :
    (∀ output, env.initial_run = ExecutionResult.revert output →
      estimate_gas env minimum_cost transaction_hash header_gas_limit =
        Except.error ⟨env.console_logs,
          TransactionFailure.revert output transaction_hash env.trace⟩) ∧
    (∀ reason, env.initial_run = ExecutionResult.halt reason →
      estimate_gas env minimum_cost transaction_hash header_gas_limit =
        Except.error ⟨env.console_logs,
          TransactionFailure.halt reason transaction_hash env.trace⟩) ∧
    (∀ gas_used, env.initial_run = ExecutionResult.success gas_used →
      env.check (max gas_used (minimum_cost + 1)) = true →
      estimate_gas env minimum_cost transaction_hash header_gas_limit =
        Except.ok (max gas_used (minimum_cost + 1))) := by
  refine ⟨?_, ?_, ?_⟩
  · intro output h
    simp [estimate_gas, h]
  · intro reason h
    simp [estimate_gas, h]
  · intro gas_used h hc
    have hmax : (if gas_used ≤ minimum_cost then minimum_cost + 1 else gas_used)
        = max gas_used (minimum_cost + 1) := by
      by_cases hg : gas_used ≤ minimum_cost
      · rw [if_pos hg]; omega
      · rw [if_neg hg]; omega
    simp [estimate_gas, h, hmax, hc]

/-- Concrete estimation oracle: initial run succeeds using 100 gas, every
check passes. -/
def c5_env : EstimateGasEnv :=
  { initial_run := ExecutionResult.success 100
    console_logs := []
    trace := 0
    check := fun _ => true }

/-- **C5 witness.**  With gas used 100 and minimum cost 5, the estimation is
`max 100 6 = 100`. -/
theorem estimate_gas_spec_witness :
    estimate_gas c5_env 5 77 30000000 = Except.ok 100 := by
  have h := (estimate_gas_spec c5_env 5 77 30000000).2.2 100 rfl rfl
  simpa using h

/-! ## Claim C8: fee history window arithmetic -/

/-- **C8.**  `fee_history` fails `UnmetHardfork` below London; otherwise,
with the newest block number resolved (pending → latest + 1), the result's
oldest block number is `max(0, newest − block_count + 1)` (as integers) and
the locally assembled entries cover block numbers up to
`last_block_number = newest + 1` — exactly the interval
`[oldest, newest + 1]` when not forked. -/
theorem fee_history_spec (pd : ProviderData) (block_count : Nat)
    (newest_block_spec : BlockSpec) :
    (pd.spec_id < SpecId.LONDON →
      pd.fee_history block_count newest_block_spec =
        Except.error (ProviderError.unmetHardfork pd.spec_id SpecId.LONDON)) ∧
    (SpecId.LONDON ≤ pd.spec_id →
      ∀ resolved, pd.block_by_block_spec newest_block_spec = Except.ok resolved →
        ∃ res, pd.fee_history block_count newest_block_spec = Except.ok res ∧
          res.oldest_block =
            (((resolved.getD (pd.last_block_number + 1)) : Int) - block_count + 1).toNat ∧
          (∀ b ∈ res.local_blocks, b ≤ resolved.getD (pd.last_block_number + 1) + 1) ∧
          (pd.fork_block_number = none →
            ∀ b, b ∈ res.local_blocks ↔
              (res.oldest_block ≤ b ∧
               b ≤ resolved.getD (pd.last_block_number + 1) + 1))) := by
  constructor
  · intro h
    simp [ProviderData.fee_history, h]
  · intro h resolved hres
    unfold ProviderData.fee_history
    rw [if_neg (not_lt.mpr h), hres]
    refine ⟨_, rfl, ?_, ?_, ?_⟩
    · by_cases hc : resolved.getD (pd.last_block_number + 1) < block_count
      · simp only [if_pos hc]
        omega
      · simp only [if_neg hc]
        omega
    · intro b hb
      simp only [List.mem_range'_1] at hb
      omega
    · intro hfork b
      simp [hfork, List.mem_range'_1]
      by_cases hc : resolved.getD (pd.last_block_number + 1) < block_count
      · simp only [if_pos hc]
        omega
      · simp only [if_neg hc]
        omega

/-- Concrete fee-history engine: London-era, latest block number 9, not
forked. -/
def c8_provider : ProviderData :=
  { initial_provider 12 100 empty_state 0 0 0 false false none none with
      blockchain := List.range' 100 10 }

/-- **C8 witness.**  On a 10-block chain (latest = 9), `fee_history` with
`block_count = 4` and the pending tag resolves newest to 10 and reports
oldest block 7 = max(0, 10 − 4 + 1). -/
theorem fee_history_spec_witness :
    ∃ res, c8_provider.fee_history 4 BlockSpec.pending = Except.ok res ∧
      res.oldest_block = 7 := by
  obtain ⟨res, hres, hold, -, -⟩ :=
    (fee_history_spec c8_provider 4 BlockSpec.pending).2 (by decide) none rfl
  refine ⟨res, hres, ?_⟩
  rw [hold]
  decide


/-! ## Claim C10: `set_account_storage_slot` records the written value as the
slot's old value -/

/-- The second invocation of the slot setter observes the first write: after
setting `(address, index)` to `value`, setting it again returns `value` as
the old value. -/
theorem double_set_slot (s : EvmState) (address index value : Nat) :
    (((s.set_account_storage_slot address index value).2).set_account_storage_slot
      address index value).1 = value := by
  simp [EvmState.set_account_storage_slot, EvmState.storage_slot,
    alookup_ainsert_self]

/-- `get_or_compute_state` only touches the cache, the block-number index and
the state-id counter: blockchain and irregular state are untouched. -/
theorem get_or_compute_state_fields (pd : ProviderData)
    (state_at_block_number : Nat → EvmState) (block_number : Nat) :
    ((pd.get_or_compute_state state_at_block_number block_number).2.2).blockchain
        = pd.blockchain ∧
    ((pd.get_or_compute_state state_at_block_number block_number).2.2).irregular_state
        = pd.irregular_state := by
  unfold ProviderData.get_or_compute_state
  cases halt' : (match alookup block_number pd.block_number_to_state_id with
      | some state_id => alookup state_id pd.block_state_cache
      | none => none : Option EvmState) with
  | some st => simp [halt']
  | none => simp [halt', ProviderData.add_state_to_cache]

/-- The address, index and recorded slot of a storage-change diff entry. -/
def StateDiffEntry.recorded_slot : StateDiffEntry → Option (Nat × Nat × StorageSlot)
  | StateDiffEntry.storage address index slot _ => some (address, index, slot)
  | StateDiffEntry.account _ _ => none

/-- **C10.**  For every `set_account_storage_slot(address, index, value)`, the
storage change recorded in the irregular-state override at the current block
number is `StorageSlot::new_changed(value, value)` — the recorded old value is
`value` itself, because the slot setter is invoked twice and the second
invocation observes the first write, so the slot's genuine pre-call value is
never recorded — while the state inserted into the cache under the engine's
new current state id has final slot value `value`. -/
theorem set_account_storage_slot_records_written_value (pd : ProviderData)
    (state_at_block_number : Nat → EvmState) (state_root : EvmState → Nat)
    (address index value : Nat) :
    ∃ ov st,
      alookup pd.last_block_number
        ((pd.set_account_storage_slot state_at_block_number state_root address index
          value).1.irregular_state) = some ov ∧
      (ov.diff.getLast?).map StateDiffEntry.recorded_slot =
        some (some (address, index, StorageSlot.new_changed value value)) ∧
      alookup
        ((pd.set_account_storage_slot state_at_block_number state_root address index
          value).1.current_state_id)
        ((pd.set_account_storage_slot state_at_block_number state_root address index
          value).1.block_state_cache) = some st ∧
      st.storage_slot address index = value := by
  rcases hget : pd.get_or_compute_state state_at_block_number pd.last_block_number
    with ⟨st0, minted, pd1⟩
  have hfields := get_or_compute_state_fields pd state_at_block_number
    pd.last_block_number
  rw [hget] at hfields
  have hbn : pd1.last_block_number = pd.last_block_number := by
    unfold ProviderData.last_block_number
    rw [hfields.1]
  unfold ProviderData.set_account_storage_slot
  rw [hget]
  simp only [EvmState.set_account_storage_slot, EvmState.storage_slot,
    IrregularState.apply_storage_change, ProviderData.add_state_to_cache,
    StorageSlot.new_changed, hbn, hfields.2, alookup_ainsert_self,
    Option.getD_some]
  refine ⟨_, _, rfl, ?_, rfl, ?_⟩
  · rw [List.getLast?_concat]
    rfl
  · simp [alookup_ainsert_self]

/-! ## Claim C7: subscription delivery order on a commit -/

/-- Whether a filter fires a subscription event on a commit: new-head
subscriptions always fire, log subscriptions fire when the block's bloom may
match their criteria, pending-transaction filters never fire on a commit. -/
def fires_on_commit (env : MineEnv) (f : Filter) : Bool :=
  f.is_subscription &&
    match f.data with
    | FilterData.logs criteria _ => env.bloom_hit criteria
    | FilterData.newHeads _ => true
    | FilterData.newPendingTransactions _ => false

/-- `notify_filters` fires subscription events exactly for the filters that
match the commit, in the registry's iteration order. -/
theorem notify_filters_order (env : MineEnv) (block_hash : Nat)
    (filters : List (Nat × Filter)) :
    ((notify_filters env block_hash filters).2).map SubscriptionEvent.filter_id =
      (filters.filter (fun kv => fires_on_commit env kv.2)).map Prod.fst := by
  induction filters with
  | nil => rfl
  | cons kv rest ih =>
    obtain ⟨filter_id, f⟩ := kv
    rcases hdata : f.data with ⟨criteria, accumulated⟩ | hashes | txs
    · by_cases hb : env.bloom_hit criteria = true
      · cases hsub : f.is_subscription with
        | true =>
            simp [notify_filters, hdata, hb, hsub, List.filter_cons,
              fires_on_commit, ih]
        | false =>
            simp [notify_filters, hdata, hb, hsub, List.filter_cons,
              fires_on_commit, ih]
      · simp [notify_filters, hdata, hb, List.filter_cons, fires_on_commit, ih]
    · cases hsub : f.is_subscription with
      | true =>
          simp [notify_filters, hdata, hsub, List.filter_cons, fires_on_commit, ih]
      | false =>
          simp [notify_filters, hdata, hsub, List.filter_cons, fires_on_commit, ih]
    · simp [notify_filters, hdata, List.filter_cons, fires_on_commit, ih]

/-- `get_or_compute_state` preserves every engine field other than the cache,
the block-number index and the state-id counter. -/
theorem get_or_compute_state_preserves (pd : ProviderData) (f : Nat → EvmState)
    (bn : Nat) :
    ((pd.get_or_compute_state f bn).2.2).spec_id = pd.spec_id ∧
    ((pd.get_or_compute_state f bn).2.2).blockchain = pd.blockchain ∧
    ((pd.get_or_compute_state f bn).2.2).irregular_state = pd.irregular_state ∧
    ((pd.get_or_compute_state f bn).2.2).mem_pool = pd.mem_pool ∧
    ((pd.get_or_compute_state f bn).2.2).beneficiary = pd.beneficiary ∧
    ((pd.get_or_compute_state f bn).2.2).prev_randao_generator
      = pd.prev_randao_generator ∧
    ((pd.get_or_compute_state f bn).2.2).block_time_offset_seconds
      = pd.block_time_offset_seconds ∧
    ((pd.get_or_compute_state f bn).2.2).is_auto_mining = pd.is_auto_mining ∧
    ((pd.get_or_compute_state f bn).2.2).next_block_base_fee_per_gas
      = pd.next_block_base_fee_per_gas ∧
    ((pd.get_or_compute_state f bn).2.2).next_block_timestamp
      = pd.next_block_timestamp ∧
    ((pd.get_or_compute_state f bn).2.2).next_snapshot_id = pd.next_snapshot_id ∧
    ((pd.get_or_compute_state f bn).2.2).snapshots = pd.snapshots ∧
    ((pd.get_or_compute_state f bn).2.2).allow_blocks_with_same_timestamp
      = pd.allow_blocks_with_same_timestamp ∧
    ((pd.get_or_compute_state f bn).2.2).filters = pd.filters ∧
    ((pd.get_or_compute_state f bn).2.2).last_filter_id = pd.last_filter_id := by
  unfold ProviderData.get_or_compute_state
  cases h : (match alookup bn pd.block_number_to_state_id with
      | some state_id => alookup state_id pd.block_state_cache
      | none => none : Option EvmState) with
  | some st => simp [h]
  | none => simp [h, ProviderData.add_state_to_cache]


/-- **C7 (amended).**  The subscription callbacks fired by one
`mine_and_commit_block` commit are exactly those of the registered
subscription filters matching the commit, delivered in the filter map's
iteration order — which, the registry being a `HashMap`, is not guaranteed to
be increasing filter-id order. -/
theorem mine_and_commit_block_subscription_order (pd : ProviderData)
    (env : MineEnv) (ts : Option Nat) (r : DebugMineBlockResult)
    (events : List SubscriptionEvent)
    (h : (pd.mine_and_commit_block env ts).2.2 = Except.ok (r, events)) :
    events.map SubscriptionEvent.filter_id =
      (pd.filters.filter (fun kv => fires_on_commit env kv.2)).map Prod.fst := by
  unfold ProviderData.mine_and_commit_block at h
  rcases hts : HardhatProvider.next_block_timestamp (last_block_timestamp pd.blockchain)
      env.now pd.next_block_timestamp pd.block_time_offset_seconds
      pd.allow_blocks_with_same_timestamp ts with e | ⟨bt, no⟩
  · rw [hts] at h
    cases h
  · rw [hts] at h
    dsimp only at h
    set pdA := (if SpecId.MERGE ≤ pd.spec_id then
        { pd with prev_randao_generator :=
            (RandomHashGenerator.next_value pd.prev_randao_generator).2 }
      else pd) with hA
    have hAfilters : pdA.filters = pd.filters := by
      rw [hA]
      by_cases hm : SpecId.MERGE ≤ pd.spec_id
      · rw [if_pos hm]
      · rw [if_neg hm]
    rcases hg : pdA.get_or_compute_state env.state_at_block_number pdA.last_block_number
      with ⟨st, minted, pdB⟩
    rw [hg] at h
    dsimp only at h
    have hBfilters : pdB.filters = pd.filters := by
      have hp := (get_or_compute_state_preserves pdA env.state_at_block_number
        pdA.last_block_number).2.2.2.2.2.2.2.2.2.2.2.2.2.1
      rw [hg] at hp
      rw [hp, hAfilters]
    rcases hevm : env.evm with e | mined
    · rw [hevm] at h
      cases h
    · rw [hevm] at h
      dsimp only at h
      cases no with
      | none =>
        rcases hupd : env.update_result with e | pool
        · rw [hupd] at h
          cases h
        · rw [hupd] at h
          dsimp only at h
          rcases hn : notify_filters env mined.block_hash pdB.filters
            with ⟨filters', events'⟩
          rw [hn] at h
          dsimp only [ProviderData.add_state_to_cache] at h
          have hev : events' = events := by
            have := h
            simp only [Except.ok.injEq, Prod.mk.injEq] at this
            exact this.2
          rw [← hev, ← hBfilters]
          have := notify_filters_order env mined.block_hash pdB.filters
          rw [hn] at this
          exact this
      | some off =>
        rcases hupd : env.update_result with e | pool
        · rw [hupd] at h
          cases h
        · rw [hupd] at h
          dsimp only at h
          rcases hn : notify_filters env mined.block_hash pdB.filters
            with ⟨filters', events'⟩
          rw [hn] at h
          dsimp only [ProviderData.add_state_to_cache] at h
          have hev : events' = events := by
            have := h
            simp only [Except.ok.injEq, Prod.mk.injEq] at this
            exact this.2
          rw [← hev, ← hBfilters]
          have := notify_filters_order env mined.block_hash pdB.filters
          rw [hn] at this
          exact this

/-- A registry whose `HashMap` iteration order lists filter id 2 before
filter id 1 (both new-head subscriptions). -/
def c7_provider : ProviderData :=
  { initial_provider 15 100 empty_state 0 0 0 false false none none with
      filters := [(2, { data := FilterData.newHeads []
                        is_subscription := true
                        expired := false }),
                  (1, { data := FilterData.newHeads []
                        is_subscription := true
                        expired := false })]
      last_filter_id := 2 }

/-- A mining oracle for a successful empty commit. -/
def c7_env : MineEnv :=
  { now := 200
    evm := Except.ok { block_hash := 5, transactions := [], state := empty_state,
                       console_log_inputs := [] }
    update_result := Except.ok []
    bloom_hit := fun _ => false
    logs_for := fun _ => []
    state_at_block_number := fun _ => empty_state }

/-- **C7 counterexample.**  The filter registry is a `HashMap`, so a commit
may walk it in an order that is not increasing in filter ids: with iteration
order `[2, 1]`, the two new-head subscription callbacks fire as `(2, 1)` —
not strictly increasing — refuting the claim that callbacks are always
invoked in strictly increasing filter-id order. -/
theorem subscription_events_not_in_id_order :
    ¬ (∀ (pd : ProviderData) (env : MineEnv) (ts : Option Nat)
         (r : DebugMineBlockResult) (events : List SubscriptionEvent),
        (pd.mine_and_commit_block env ts).2.2 = Except.ok (r, events) →
        (events.map SubscriptionEvent.filter_id).Chain' (· < ·)) := by
  intro hclaim
  have hrun : (c7_provider.mine_and_commit_block c7_env none).2.2 =
      Except.ok ({ block_timestamp := 200, block_hash := 5, transactions := [],
                   console_log_inputs := [] },
        [⟨2, SubscriptionEventData.newHeads 5⟩,
         ⟨1, SubscriptionEventData.newHeads 5⟩]) := rfl
  have h := hclaim c7_provider c7_env none _ _ hrun
  simp only [List.map_cons, List.map_nil] at h
  rw [List.chain'_cons] at h
  exact absurd h.1 (by decide)

/-! ## Id-minting discipline (claim C9) and the mining frame -/

/-- The state ids minted by `get_or_compute_state` are the consecutive range
above the engine's current state id, which advances by their count. -/
theorem get_or_compute_state_ids (pd : ProviderData) (f : Nat → EvmState)
    (bn : Nat) :
    (pd.get_or_compute_state f bn).2.1 =
      List.range' (pd.current_state_id + 1)
        (pd.get_or_compute_state f bn).2.1.length ∧
    ((pd.get_or_compute_state f bn).2.2).current_state_id =
      pd.current_state_id + (pd.get_or_compute_state f bn).2.1.length := by
  unfold ProviderData.get_or_compute_state
  cases h : (match alookup bn pd.block_number_to_state_id with
      | some state_id => alookup state_id pd.block_state_cache
      | none => none : Option EvmState) with
  | some st => simp [h]
  | none => simp [h, ProviderData.add_state_to_cache, List.range']

/-- Appending the next element to a consecutive range. -/
theorem range'_snoc (s n : Nat) :
    List.range' s n ++ [s + n] = List.range' s (n + 1) := by
  rw [List.range'_concat]
  simp

/-- A consecutive id range extended with the next id is again a consecutive
range. -/
theorem minted_snoc (c : Nat) (l : List Nat)
    (hl : l = List.range' (c + 1) l.length) (x : Nat)
    (hx : x = c + l.length + 1) :
    l ++ [x] = List.range' (c + 1) ((l ++ [x]).length) := by
  rw [List.length_append, List.length_singleton]
  rw [← range'_snoc]
  nth_rewrite 1 [hl]
  rw [hx]
  congr 1
  simp only [List.cons.injEq, and_true]
  omega

/-- Frame lemma for `mine_and_commit_block`: whatever the oracle outcomes,
the blockchain is only ever extended, the snapshot store, the snapshot-id
counter and the filter-id counter are untouched, and the minted state ids are
the consecutive range above the current state id, which advances by their
count. -/
theorem mine_and_commit_block_frame (pd : ProviderData) (env : MineEnv)
    (ts : Option Nat) :
    (∃ d, (pd.mine_and_commit_block env ts).1.blockchain = pd.blockchain ++ d) ∧
    (pd.mine_and_commit_block env ts).1.snapshots = pd.snapshots ∧
    (pd.mine_and_commit_block env ts).1.next_snapshot_id = pd.next_snapshot_id ∧
    (pd.mine_and_commit_block env ts).1.last_filter_id = pd.last_filter_id ∧
    (pd.mine_and_commit_block env ts).2.1 =
      List.range' (pd.current_state_id + 1)
        (pd.mine_and_commit_block env ts).2.1.length ∧
    (pd.mine_and_commit_block env ts).1.current_state_id =
      pd.current_state_id + (pd.mine_and_commit_block env ts).2.1.length := by
  unfold ProviderData.mine_and_commit_block
  rcases hts : HardhatProvider.next_block_timestamp (last_block_timestamp pd.blockchain)
      env.now pd.next_block_timestamp pd.block_time_offset_seconds
      pd.allow_blocks_with_same_timestamp ts with e | ⟨bt, no⟩
  · dsimp only
    exact ⟨⟨[], by simp⟩, rfl, rfl, rfl, by simp, by simp⟩
  · dsimp only
    set pdA := (if SpecId.MERGE ≤ pd.spec_id then
        { pd with prev_randao_generator :=
            (RandomHashGenerator.next_value pd.prev_randao_generator).2 }
      else pd) with hA
    have hApd : pdA.blockchain = pd.blockchain ∧ pdA.snapshots = pd.snapshots ∧
        pdA.next_snapshot_id = pd.next_snapshot_id ∧
        pdA.last_filter_id = pd.last_filter_id ∧
        pdA.current_state_id = pd.current_state_id := by
      rw [hA]
      by_cases hm : SpecId.MERGE ≤ pd.spec_id
      · rw [if_pos hm]
        exact ⟨rfl, rfl, rfl, rfl, rfl⟩
      · rw [if_neg hm]
        exact ⟨rfl, rfl, rfl, rfl, rfl⟩
    rcases hg : pdA.get_or_compute_state env.state_at_block_number pdA.last_block_number
      with ⟨st, minted, pdB⟩
    dsimp only
    have hBids := get_or_compute_state_ids pdA env.state_at_block_number
      pdA.last_block_number
    rw [hg] at hBids
    have hBpres := get_or_compute_state_preserves pdA env.state_at_block_number
      pdA.last_block_number
    rw [hg] at hBpres
    obtain ⟨-, hBchain, -, -, -, -, -, -, -, -, hBsnapid, hBsnap, -, -, hBfid⟩ := hBpres
    have hminted : minted = List.range' (pd.current_state_id + 1) minted.length := by
      have := hBids.1
      rw [hApd.2.2.2.2] at this
      exact this
    have hBcur : pdB.current_state_id = pd.current_state_id + minted.length := by
      have := hBids.2
      rw [hApd.2.2.2.2] at this
      exact this
    rcases hevm : env.evm with e | mined
    · dsimp only
      refine ⟨⟨[], by rw [hBchain, hApd.1, List.append_nil]⟩,
        by rw [hBsnap, hApd.2.1],
        by rw [hBsnapid, hApd.2.2.1],
        by rw [hBfid, hApd.2.2.2.1],
        hminted, by rw [hBcur]⟩
    · dsimp only
      cases no with
      | none =>
        rcases hupd : env.update_result with e | pool
        · dsimp only
          refine ⟨⟨[bt], by rw [show insert_block pdB.blockchain bt =
              pdB.blockchain ++ [bt] from rfl, hBchain, hApd.1]⟩,
            by rw [hBsnap, hApd.2.1],
            by rw [hBsnapid, hApd.2.2.1],
            by rw [hBfid, hApd.2.2.2.1],
            hminted, by rw [hBcur]⟩
        · dsimp only
          rcases hn : notify_filters env mined.block_hash pdB.filters
            with ⟨filters', events'⟩
          dsimp only [ProviderData.add_state_to_cache]
          refine ⟨⟨[bt], by rw [show insert_block pdB.blockchain bt =
              pdB.blockchain ++ [bt] from rfl, hBchain, hApd.1]⟩,
            by rw [hBsnap, hApd.2.1],
            by rw [hBsnapid, hApd.2.2.1],
            by rw [hBfid, hApd.2.2.2.1], ?_, ?_⟩
          · exact minted_snoc pd.current_state_id minted hminted _ (by rw [hBcur])
          · rw [List.length_append, List.length_singleton, hBcur]
            omega
      | some off =>
        rcases hupd : env.update_result with e | pool
        · dsimp only
          refine ⟨⟨[bt], by rw [show insert_block pdB.blockchain bt =
              pdB.blockchain ++ [bt] from rfl, hBchain, hApd.1]⟩,
            by rw [hBsnap, hApd.2.1],
            by rw [hBsnapid, hApd.2.2.1],
            by rw [hBfid, hApd.2.2.2.1],
            hminted, by rw [hBcur]⟩
        · dsimp only
          rcases hn : notify_filters env mined.block_hash pdB.filters
            with ⟨filters', events'⟩
          dsimp only [ProviderData.add_state_to_cache]
          refine ⟨⟨[bt], by rw [show insert_block pdB.blockchain bt =
              pdB.blockchain ++ [bt] from rfl, hBchain, hApd.1]⟩,
            by rw [hBsnap, hApd.2.1],
            by rw [hBsnapid, hApd.2.2.1],
            by rw [hBfid, hApd.2.2.2.1], ?_, ?_⟩
          · exact minted_snoc pd.current_state_id minted hminted _ (by rw [hBcur])
          · rw [List.length_append, List.length_singleton, hBcur]
            omega

/-- Concatenation of two consecutive ranges, the second starting where the
first ends. -/
theorem range_comp (s : Nat) (l1 l2 : List Nat)
    (h1 : l1 = List.range' s l1.length)
    (h2 : l2 = List.range' (s + l1.length) l2.length) :
    l1 ++ l2 = List.range' s ((l1 ++ l2).length) := by
  rw [List.length_append]
  nth_rewrite 1 [h1]
  nth_rewrite 1 [h2]
  rw [Nat.add_comm l1.length l2.length]
  exact List.range'_append_1 s l1.length l2.length

/-- Id discipline of one engine step: the filter ids minted are the
consecutive range above `last_filter_id`, the snapshot ids the consecutive
range from `next_snapshot_id`, the state ids the consecutive range above
`current_state_id`, and each counter advances by the count minted. -/
def IdStep (pd pd' : ProviderData) (tr : IdTraces) : Prop :=
  tr.filter_ids = List.range' (pd.last_filter_id + 1) tr.filter_ids.length ∧
  pd'.last_filter_id = pd.last_filter_id + tr.filter_ids.length ∧
  tr.snapshot_ids = List.range' pd.next_snapshot_id tr.snapshot_ids.length ∧
  pd'.next_snapshot_id = pd.next_snapshot_id + tr.snapshot_ids.length ∧
  tr.state_ids = List.range' (pd.current_state_id + 1) tr.state_ids.length ∧
  pd'.current_state_id = pd.current_state_id + tr.state_ids.length

/-- `set_account_storage_slot` mints the consecutive state ids above the
current id and advances the counter accordingly, leaving the other id
counters alone. -/
theorem set_account_storage_slot_ids (pd : ProviderData) (f : Nat → EvmState)
    (root : EvmState → Nat) (a i v : Nat) :
    (pd.set_account_storage_slot f root a i v).2 =
      List.range' (pd.current_state_id + 1)
        (pd.set_account_storage_slot f root a i v).2.length ∧
    (pd.set_account_storage_slot f root a i v).1.current_state_id =
      pd.current_state_id + (pd.set_account_storage_slot f root a i v).2.length ∧
    (pd.set_account_storage_slot f root a i v).1.last_filter_id
      = pd.last_filter_id ∧
    (pd.set_account_storage_slot f root a i v).1.next_snapshot_id
      = pd.next_snapshot_id := by
  unfold ProviderData.set_account_storage_slot
  rcases hg : pd.get_or_compute_state f pd.last_block_number with ⟨st, minted, pdB⟩
  have hids := get_or_compute_state_ids pd f pd.last_block_number
  rw [hg] at hids
  dsimp only at hids
  have hpres := get_or_compute_state_preserves pd f pd.last_block_number
  rw [hg] at hpres
  dsimp only at hpres
  obtain ⟨-, -, -, -, -, -, -, -, -, -, hBsnapid, -, -, -, hBfid⟩ := hpres
  dsimp only [ProviderData.add_state_to_cache]
  refine ⟨minted_snoc pd.current_state_id minted hids.1 _ (by rw [hids.2]), ?_,
    hBfid, hBsnapid⟩
  rw [List.length_append, List.length_singleton, hids.2]
  omega

/-- Every engine operation respects the id-minting discipline. -/
theorem apply_op_id_step (pd : ProviderData) (op : EngineOp) :
    IdStep pd (pd.apply_op op).1 (pd.apply_op op).2 := by
  cases op with
  | addBlockFilter sub =>
      exact ⟨by simp [ProviderData.apply_op, ProviderData.add_block_filter,
          ProviderData.next_filter_id, List.range'],
        by simp [ProviderData.apply_op, ProviderData.add_block_filter,
          ProviderData.next_filter_id],
        rfl, rfl, rfl, rfl⟩
  | addLogFilter sub criteria initial_logs =>
      exact ⟨by simp [ProviderData.apply_op, ProviderData.add_log_filter,
          ProviderData.next_filter_id, List.range'],
        by simp [ProviderData.apply_op, ProviderData.add_log_filter,
          ProviderData.next_filter_id],
        rfl, rfl, rfl, rfl⟩
  | addPendingTransactionFilter sub =>
      exact ⟨by simp [ProviderData.apply_op,
          ProviderData.add_pending_transaction_filter,
          ProviderData.next_filter_id, List.range'],
        by simp [ProviderData.apply_op,
          ProviderData.add_pending_transaction_filter,
          ProviderData.next_filter_id],
        rfl, rfl, rfl, rfl⟩
  | removeFilter sub fid =>
      unfold ProviderData.apply_op ProviderData.remove_filter_impl
      cases h : alookup fid pd.filters with
      | some f =>
          by_cases hs : f.is_subscription = sub
          · simp only [h, if_pos hs]
            exact ⟨rfl, rfl, rfl, rfl, rfl, rfl⟩
          · simp only [h, if_neg hs]
            exact ⟨rfl, rfl, rfl, rfl, rfl, rfl⟩
      | none =>
          simp only [h]
          exact ⟨rfl, rfl, rfl, rfl, rfl, rfl⟩
  | makeSnapshot now =>
      exact ⟨rfl, rfl, by simp [ProviderData.apply_op, ProviderData.make_snapshot,
          List.range'],
        by simp [ProviderData.apply_op, ProviderData.make_snapshot],
        rfl, rfl⟩
  | revertToSnapshot now sid =>
      unfold ProviderData.apply_op ProviderData.revert_to_snapshot
      cases h : alookup sid (pd.snapshots.filter fun kv => decide (sid ≤ kv.1)) with
      | some s =>
          simp only [h]
          exact ⟨rfl, rfl, rfl, rfl, rfl, rfl⟩
      | none =>
          simp only [h]
          exact ⟨rfl, rfl, rfl, rfl, rfl, rfl⟩
  | mineAndCommitBlock env ts =>
      unfold ProviderData.apply_op
      rcases hm : pd.mine_and_commit_block env ts with ⟨pd', ids, out⟩
      have hf := mine_and_commit_block_frame pd env ts
      rw [hm] at hf
      dsimp only at hf ⊢
      rw [hm]
      dsimp only
      obtain ⟨-, -, hsnapid, hfid, hids, hcur⟩ := hf
      exact ⟨rfl, by simp [hfid], rfl, by simp [hsnapid], hids, hcur⟩
  | setAccountStorageSlot f root a i v =>
      unfold ProviderData.apply_op
      rcases hs : pd.set_account_storage_slot f root a i v with ⟨pd', ids⟩
      have hf := set_account_storage_slot_ids pd f root a i v
      rw [hs] at hf
      dsimp only at hf ⊢
      rw [hs]
      dsimp only
      obtain ⟨hids, hcur, hfid, hsnapid⟩ := hf
      exact ⟨rfl, by simp [hfid], rfl, by simp [hsnapid], hids, hcur⟩
  | increaseBlockTime seconds =>
      exact ⟨rfl, rfl, rfl, rfl, rfl, rfl⟩

/-- Running any operation sequence respects the id-minting discipline. -/
theorem run_ops_id_step (ops : List EngineOp) (pd : ProviderData) :
    IdStep pd (pd.run_ops ops).1 (pd.run_ops ops).2 := by
  induction ops generalizing pd with
  | nil => exact ⟨rfl, rfl, rfl, rfl, rfl, rfl⟩
  | cons op ops ih =>
      rcases h1 : pd.apply_op op with ⟨pd1, tr1⟩
      rcases h2 : pd1.run_ops ops with ⟨pd2, tr2⟩
      have s1 := apply_op_id_step pd op
      rw [h1] at s1
      dsimp only at s1
      have s2 := ih pd1
      rw [h2] at s2
      dsimp only at s2
      obtain ⟨f1, fc1, sn1, snc1, st1, stc1⟩ := s1
      obtain ⟨f2, fc2, sn2, snc2, st2, stc2⟩ := s2
      show IdStep pd (pd.run_ops (op :: ops)).1 (pd.run_ops (op :: ops)).2
      unfold ProviderData.run_ops
      rw [h1]
      dsimp only
      rw [h2]
      dsimp only
      refine ⟨?_, ?_, ?_, ?_, ?_, ?_⟩
      · refine range_comp _ _ _ f1 ?_
        rw [show pd.last_filter_id + 1 + tr1.filter_ids.length
          = pd1.last_filter_id + 1 from by omega]
        exact f2
      · rw [List.length_append]
        omega
      · refine range_comp _ _ _ sn1 ?_
        rw [show pd.next_snapshot_id + tr1.snapshot_ids.length
          = pd1.next_snapshot_id from by omega]
        exact sn2
      · rw [List.length_append]
        omega
      · refine range_comp _ _ _ st1 ?_
        rw [show pd.current_state_id + 1 + tr1.state_ids.length
          = pd1.current_state_id + 1 from by omega]
        exact st2
      · rw [List.length_append]
        omega

/-- **C9.**  From a freshly constructed engine, the filter ids issued across
any sequence of engine operations form the sequence 1, 2, 3, …; the snapshot
ids issued by `make_snapshot` form the sequence 1, 2, 3, …; and the state ids
minted by `add_state_to_cache` form the sequence 1, 2, 3, … — in particular
every minted id is strictly greater than all previously minted ids of its
kind. -/
theorem engine_ids_monotonic (spec genesis_timestamp : Nat)
    (genesis_state : EvmState) (beneficiary min_gas_price : Nat) (offset : Int)
    (auto allow : Bool) (base_fee fork : Option Nat) (ops : List EngineOp) :
    ((initial_provider spec genesis_timestamp genesis_state beneficiary
        min_gas_price offset auto allow base_fee fork).run_ops ops).2.filter_ids =
      List.range' 1 ((initial_provider spec genesis_timestamp genesis_state
        beneficiary min_gas_price offset auto allow base_fee
        fork).run_ops ops).2.filter_ids.length ∧
    ((initial_provider spec genesis_timestamp genesis_state beneficiary
        min_gas_price offset auto allow base_fee fork).run_ops ops).2.snapshot_ids =
      List.range' 1 ((initial_provider spec genesis_timestamp genesis_state
        beneficiary min_gas_price offset auto allow base_fee
        fork).run_ops ops).2.snapshot_ids.length ∧
    ((initial_provider spec genesis_timestamp genesis_state beneficiary
        min_gas_price offset auto allow base_fee fork).run_ops ops).2.state_ids =
      List.range' 1 ((initial_provider spec genesis_timestamp genesis_state
        beneficiary min_gas_price offset auto allow base_fee
        fork).run_ops ops).2.state_ids.length := by
  have h := run_ops_id_step ops (initial_provider spec genesis_timestamp
    genesis_state beneficiary min_gas_price offset auto allow base_fee fork)
  exact ⟨h.1, h.2.2.1, h.2.2.2.2.1⟩

/-- **C7 witness.**  On the concrete two-subscription registry with iteration
order `[2, 1]`, the commit fires the events for ids 2 then 1 — the registry's
iteration order. -/
theorem mine_and_commit_block_subscription_order_witness :
    ([⟨2, SubscriptionEventData.newHeads 5⟩,
      ⟨1, SubscriptionEventData.newHeads 5⟩] : List SubscriptionEvent).map
        SubscriptionEvent.filter_id =
      (c7_provider.filters.filter
        (fun kv => fires_on_commit c7_env kv.2)).map Prod.fst :=
  mine_and_commit_block_subscription_order c7_provider c7_env none
    { block_timestamp := 200, block_hash := 5, transactions := [],
      console_log_inputs := [] }
    [⟨2, SubscriptionEventData.newHeads 5⟩, ⟨1, SubscriptionEventData.newHeads 5⟩]
    rfl

/-! ## Claim C6: bulk mining timestamps -/

/-- The explicit-timestamp path with `latest < requested` succeeds and uses
the requested timestamp unchanged. -/
theorem next_block_timestamp_gt (latest : Nat) (now : Int) (sticky : Option Nat)
    (offset : Int) (allow : Bool) (r : Nat) (h : latest < r) :
    next_block_timestamp latest now sticky offset allow (some r) =
      Except.ok (r, some ((r : Int) - now)) := by
  rw [(next_block_timestamp_requested latest now sticky offset allow r).2
    (Nat.le_of_lt h)]
  rw [if_neg]
  rintro ⟨he, -⟩
  omega

/-- The no-argument path of `next_block_timestamp` never fails. -/
theorem next_block_timestamp_none_ok (latest : Nat) (now : Int)
    (sticky : Option Nat) (offset : Int) (allow : Bool) :
    ∃ bt no, next_block_timestamp latest now sticky offset allow none =
      Except.ok (bt, no) := by
  unfold next_block_timestamp
  cases sticky with
  | none =>
      dsimp only
      split
      · exact ⟨_, _, rfl⟩
      · exact ⟨_, _, rfl⟩
  | some next =>
      dsimp only
      split
      · exact ⟨_, _, rfl⟩
      · exact ⟨_, _, rfl⟩

/-- When the timestamp selection and both collaborators succeed,
`mine_and_commit_block` appends exactly one block carrying the chosen
timestamp and reports it in the result. -/
theorem mine_and_commit_block_ok_result (pd : ProviderData) (env : MineEnv)
    (ts : Option Nat) (bt : Nat) (no : Option Int) (m : MineBlockResult)
    (p : List Nat)
    (hts : HardhatProvider.next_block_timestamp (last_block_timestamp pd.blockchain)
      env.now pd.next_block_timestamp pd.block_time_offset_seconds
      pd.allow_blocks_with_same_timestamp ts = Except.ok (bt, no))
    (hevm : env.evm = Except.ok m) (hupd : env.update_result = Except.ok p) :
    (pd.mine_and_commit_block env ts).1.blockchain = pd.blockchain ++ [bt] ∧
    ∃ events, (pd.mine_and_commit_block env ts).2.2 =
      Except.ok ({ block_timestamp := bt, block_hash := m.block_hash,
                   transactions := m.transactions,
                   console_log_inputs := m.console_log_inputs }, events) := by
  unfold ProviderData.mine_and_commit_block
  rw [hts]
  dsimp only
  set pdA := (if SpecId.MERGE ≤ pd.spec_id then
      { pd with prev_randao_generator :=
          (RandomHashGenerator.next_value pd.prev_randao_generator).2 }
    else pd) with hA
  have hAchain : pdA.blockchain = pd.blockchain := by
    rw [hA]
    by_cases hm : SpecId.MERGE ≤ pd.spec_id
    · rw [if_pos hm]
    · rw [if_neg hm]
  rcases hg : pdA.get_or_compute_state env.state_at_block_number pdA.last_block_number
    with ⟨st, minted, pdB⟩
  have hBchain : pdB.blockchain = pd.blockchain := by
    have hp := (get_or_compute_state_preserves pdA env.state_at_block_number
      pdA.last_block_number).2.1
    rw [hg] at hp
    dsimp only at hp
    rw [hp, hAchain]
  rw [hevm, hupd]
  dsimp only
  cases no with
  | none =>
      rcases hn : notify_filters env m.block_hash pdB.filters
        with ⟨filters', events'⟩
      dsimp only [ProviderData.add_state_to_cache]
      exact ⟨by rw [show insert_block pdB.blockchain bt
          = pdB.blockchain ++ [bt] from rfl, hBchain], ⟨events', rfl⟩⟩
  | some off =>
      rcases hn : notify_filters env m.block_hash pdB.filters
        with ⟨filters', events'⟩
      dsimp only [ProviderData.add_state_to_cache]
      exact ⟨by rw [show insert_block pdB.blockchain bt
          = pdB.blockchain ++ [bt] from rfl, hBchain], ⟨events', rfl⟩⟩

/-- Arithmetic step for interval timestamps. -/
theorem pred_mul_add (m i : Nat) (hm : 1 ≤ m) : (m - 1) * i + i = m * i := by
  cases m with
  | zero => omega
  | succ m' => simp [Nat.succ_sub_one, Nat.succ_mul]

/-- The last timestamp of a chain extended by a nonempty mapped range. -/
theorem last_block_timestamp_append_map (c : List Nat) (f : Nat → Nat) (m : Nat)
    (hm : 1 ≤ m) :
    last_block_timestamp (c ++ (List.range m).map f) = f (m - 1) := by
  unfold last_block_timestamp
  cases m with
  | zero => omega
  | succ m' =>
      rw [List.range_succ, List.map_append, ← List.append_assoc,
        show (List.map f [m'] : List Nat) = [f m'] from rfl,
        List.getLast?_concat]
      simp

/-- The interval-mining invariant: after `m ≥ 1` blocks have been mined, the
chain is the original one extended by the timestamps `t0 + j·interval` for
`j < m`, and the last accumulated result carries the last of them. -/
def IntervalInv (pd0chain : List Nat) (t0 interval : Nat)
    (pd : ProviderData) (acc : List DebugMineBlockResult) (m : Nat) : Prop :=
  1 ≤ m ∧
  pd.blockchain = pd0chain ++ (List.range m).map (fun j => t0 + j * interval) ∧
  (acc.getLast?).map DebugMineBlockResult.block_timestamp
    = some (t0 + (m - 1) * interval) ∧
  acc.length = m

/-- One `mine_block_with_interval` step preserves the interval invariant,
advancing the block count. -/
theorem mine_block_with_interval_step (env : MineEnv) (interval : Nat)
    (hi : 1 ≤ interval) (pd0chain : List Nat) (t0 : Nat)
    (pd : ProviderData) (acc : List DebugMineBlockResult) (m : Nat)
    (hinv : IntervalInv pd0chain t0 interval pd acc m)
    (hevm : ∃ mb, env.evm = Except.ok mb)
    (hupd : ∃ p, env.update_result = Except.ok p) :
    ∃ pd' acc', mine_block_with_interval env interval pd acc = (pd', Except.ok acc') ∧
      IntervalInv pd0chain t0 interval pd' acc' (m + 1) := by
  obtain ⟨hm, hchain, hacc, hlen⟩ := hinv
  obtain ⟨mb, hevm⟩ := hevm
  obtain ⟨p, hupd⟩ := hupd
  have hlast : last_block_timestamp pd.blockchain = t0 + (m - 1) * interval := by
    rw [hchain]
    exact last_block_timestamp_append_map pd0chain _ m hm
  have hts := next_block_timestamp_gt (last_block_timestamp pd.blockchain) env.now
    pd.next_block_timestamp pd.block_time_offset_seconds
    pd.allow_blocks_with_same_timestamp
    (t0 + (m - 1) * interval + interval) (by rw [hlast]; omega)
  have hok := mine_and_commit_block_ok_result pd env
    (some (t0 + (m - 1) * interval + interval)) (t0 + (m - 1) * interval + interval)
    (some ((t0 + (m - 1) * interval + interval : Nat) - env.now)) mb p hts hevm hupd
  obtain ⟨hchain', events, hout⟩ := hok
  unfold mine_block_with_interval
  rw [show ((acc.getLast?).map DebugMineBlockResult.block_timestamp).getD 0
    = t0 + (m - 1) * interval from by rw [hacc]; rfl]
  dsimp only
  rcases hmine : pd.mine_and_commit_block env
      (some (t0 + (m - 1) * interval + interval)) with ⟨pdm, ids, out⟩
  rw [hmine] at hchain' hout
  dsimp only at hchain' hout
  rw [hout]
  dsimp only
  refine ⟨pdm, _, rfl, Nat.le_add_left 1 m, ?_, ?_, ?_⟩
  · rw [hchain', hchain, List.append_assoc, List.range_succ, List.map_append]
    congr 2
    rw [show ((List.map (fun j => t0 + j * interval) [m] : List Nat))
      = [t0 + m * interval] from rfl]
    congr 1
    rw [Nat.add_assoc, pred_mul_add m interval hm]
  · rw [List.getLast?_concat]
    simp only [Option.map_some']
    congr 1
    rw [Nat.add_sub_cancel, Nat.add_assoc, pred_mul_add m interval hm]
  · rw [List.length_append, hlen, List.length_singleton]

/-- The pending-transaction loop of `mine_and_commit_blocks` preserves the
interval invariant and mines at most `fuel` further blocks. -/
theorem mine_while_pending_inv (envs : Nat → MineEnv) (interval : Nat)
    (hi : 1 ≤ interval)
    (henv : ∀ j, (∃ mb, (envs j).evm = Except.ok mb) ∧
      (∃ p, (envs j).update_result = Except.ok p))
    (pd0chain : List Nat) (t0 : Nat) :
    ∀ fuel k pd acc m, IntervalInv pd0chain t0 interval pd acc m →
      ∃ pd' k' acc' m',
        mine_while_pending envs interval fuel k pd acc = (pd', k', Except.ok acc') ∧
        IntervalInv pd0chain t0 interval pd' acc' m' ∧ m ≤ m' ∧ m' ≤ m + fuel := by
  intro fuel
  induction fuel with
  | zero =>
      intro k pd acc m hinv
      exact ⟨pd, k, acc, m, rfl, hinv, Nat.le_refl m, by omega⟩
  | succ fuel ih =>
      intro k pd acc m hinv
      cases hp : pd.mem_pool.isEmpty with
      | true =>
          refine ⟨pd, k, acc, m, ?_, hinv, Nat.le_refl m, by omega⟩
          unfold mine_while_pending
          rw [hp, if_pos rfl]
      | false =>
          obtain ⟨pd1, acc1, hstep, hinv1⟩ := mine_block_with_interval_step
            (envs k) interval hi pd0chain t0 pd acc m hinv (henv k).1 (henv k).2
          obtain ⟨pd', k', acc', m', hrun, hinv', hle1, hle2⟩ :=
            ih (k + 1) pd1 acc1 (m + 1) hinv1
          refine ⟨pd', k', acc', m', ?_, hinv', by omega, by omega⟩
          unfold mine_while_pending
          rw [hp, if_neg Bool.false_ne_true, hstep]
          exact hrun

/-- The one-by-one tail of `mine_and_commit_blocks` mines exactly `count`
further interval blocks. -/
theorem mine_remaining_inv (envs : Nat → MineEnv) (interval : Nat)
    (hi : 1 ≤ interval)
    (henv : ∀ j, (∃ mb, (envs j).evm = Except.ok mb) ∧
      (∃ p, (envs j).update_result = Except.ok p))
    (pd0chain : List Nat) (t0 : Nat) :
    ∀ count k pd acc m, IntervalInv pd0chain t0 interval pd acc m →
      ∃ pd' k' acc',
        mine_remaining envs interval count k pd acc = (pd', k', Except.ok acc') ∧
        IntervalInv pd0chain t0 interval pd' acc' (m + count) := by
  intro count
  induction count with
  | zero =>
      intro k pd acc m hinv
      exact ⟨pd, k, acc, rfl, hinv⟩
  | succ count ih =>
      intro k pd acc m hinv
      obtain ⟨pd1, acc1, hstep, hinv1⟩ := mine_block_with_interval_step
        (envs k) interval hi pd0chain t0 pd acc m hinv (henv k).1 (henv k).2
      obtain ⟨pd', k', acc', hrun, hinv'⟩ := ih (k + 1) pd1 acc1 (m + 1) hinv1
      have hfin : IntervalInv pd0chain t0 interval pd' acc' (m + (count + 1)) := by
        rw [show m + (count + 1) = m + 1 + count from by omega]
        exact hinv'
      refine ⟨pd', k', acc', ?_, hfin⟩
      unfold mine_remaining
      rw [hstep]
      exact hrun

/-- Reserving `r` blocks on a chain in interval shape extends it by the next
`r` interval timestamps. -/
theorem reserve_blocks_chain (pd0chain : List Nat) (t0 interval m r : Nat)
    (hm : 1 ≤ m) (chain : List Nat)
    (hchain : chain = pd0chain ++ (List.range m).map (fun j => t0 + j * interval)) :
    reserve_blocks chain r interval =
      pd0chain ++ (List.range (m + r)).map (fun j => t0 + j * interval) := by
  unfold reserve_blocks
  rw [hchain]
  rw [show last_block_timestamp
      (pd0chain ++ (List.range m).map (fun j => t0 + j * interval))
      = t0 + (m - 1) * interval from
    last_block_timestamp_append_map pd0chain _ m hm]
  rw [List.append_assoc]
  congr 1
  rw [List.range_add, List.map_append, List.map_map]
  congr 1
  apply List.map_congr_left
  intro j hj
  show t0 + (m - 1) * interval + (j + 1) * interval = t0 + (m + j) * interval
  rw [Nat.add_assoc]
  congr 1
  rw [← Nat.add_mul]
  congr 1
  omega

/-- `add_state_to_cache` leaves the blockchain unchanged. -/
theorem add_state_to_cache_blockchain (pd : ProviderData) (st : EvmState)
    (bn : Nat) : ((pd.add_state_to_cache st bn).2).blockchain = pd.blockchain :=
  rfl

/-- The final bracketing mine after a reservation: mining at the last reserved
timestamp plus the interval extends an interval-shaped chain by one more
interval block. -/
theorem final_reserved_mine (env : MineEnv) (interval : Nat) (hi : 1 ≤ interval)
    (pd0chain : List Nat) (t0 mtot : Nat) (hm : 1 ≤ mtot) (pdR : ProviderData)
    (hchainR : pdR.blockchain =
      pd0chain ++ (List.range mtot).map (fun j => t0 + j * interval))
    (hevm : ∃ mb, env.evm = Except.ok mb)
    (hupd : ∃ p, env.update_result = Except.ok p) :
    ∃ pdF idsF rF evF,
      pdR.mine_and_commit_block env (some (t0 + (mtot - 1) * interval + interval))
        = (pdF, idsF, Except.ok (rF, evF)) ∧
      pdF.blockchain =
        pd0chain ++ (List.range (mtot + 1)).map (fun j => t0 + j * interval) := by
  obtain ⟨mb, hevm⟩ := hevm
  obtain ⟨p, hupd⟩ := hupd
  have hlast : last_block_timestamp pdR.blockchain = t0 + (mtot - 1) * interval := by
    rw [hchainR]
    exact last_block_timestamp_append_map pd0chain _ mtot hm
  have hts := next_block_timestamp_gt (last_block_timestamp pdR.blockchain) env.now
    pdR.next_block_timestamp pdR.block_time_offset_seconds
    pdR.allow_blocks_with_same_timestamp
    (t0 + (mtot - 1) * interval + interval) (by rw [hlast]; omega)
  have hok := mine_and_commit_block_ok_result pdR env
    (some (t0 + (mtot - 1) * interval + interval))
    (t0 + (mtot - 1) * interval + interval)
    (some ((t0 + (mtot - 1) * interval + interval : Nat) - env.now)) mb p hts hevm
    hupd
  rcases hmine : pdR.mine_and_commit_block env
      (some (t0 + (mtot - 1) * interval + interval)) with ⟨pdF, idsF, outF⟩
  rw [hmine] at hok
  dsimp only at hok
  obtain ⟨hchainF, evF, houtF⟩ := hok
  refine ⟨pdF, idsF, _, evF, by rw [houtF], ?_⟩
  rw [hchainF, hchainR, List.append_assoc, List.range_succ, List.map_append]
  congr 2
  rw [show ((List.map (fun j => t0 + j * interval) [mtot] : List Nat))
    = [t0 + mtot * interval] from rfl]
  congr 1
  rw [Nat.add_assoc, pred_mul_add mtot interval hm]

/-- **C6 (amended).**  For `n ≥ 1` and `interval ≥ 1`, when the EVM and the
mempool reconciliation succeed on every iteration, `mine_and_commit_blocks`
succeeds and extends the chain by exactly `n` blocks (including any reserved
placeholder blocks) whose timestamps are `t0, t0 + interval, …,
t0 + (n−1)·interval`, where `t0` is the timestamp the standard next-timestamp
algorithm chooses for the first block. -/
theorem mine_and_commit_blocks_spec (pd : ProviderData) (envs : Nat → MineEnv)
    (n interval : Nat) (hn : 1 ≤ n) (hi : 1 ≤ interval)
    (henv : ∀ j, (∃ mb, (envs j).evm = Except.ok mb) ∧
      (∃ p, (envs j).update_result = Except.ok p))
    (t0 : Nat) (no : Option Int)
    (ht0 : HardhatProvider.next_block_timestamp (last_block_timestamp pd.blockchain)
      (envs 0).now pd.next_block_timestamp pd.block_time_offset_seconds
      pd.allow_blocks_with_same_timestamp none = Except.ok (t0, no)) :
    (∃ results, (pd.mine_and_commit_blocks envs n interval).2 = Except.ok results) ∧
    (pd.mine_and_commit_blocks envs n interval).1.blockchain =
      pd.blockchain ++ (List.range n).map (fun j => t0 + j * interval) := by
  obtain ⟨mb0, hevm0⟩ := (henv 0).1
  obtain ⟨p0, hupd0⟩ := (henv 0).2
  have hok0 := mine_and_commit_block_ok_result pd (envs 0) none t0 no mb0 p0 ht0
    hevm0 hupd0
  unfold ProviderData.mine_and_commit_blocks
  rw [if_neg (by omega)]
  rcases hm0 : pd.mine_and_commit_block (envs 0) none with ⟨pd1, ids0, out0⟩
  rw [hm0] at hok0
  dsimp only at hok0
  obtain ⟨hchain1, events0, hout0⟩ := hok0
  rw [hout0]
  dsimp only
  have hinv1 : IntervalInv pd.blockchain t0 interval pd1
      [{ block_timestamp := t0, block_hash := mb0.block_hash,
         transactions := mb0.transactions,
         console_log_inputs := mb0.console_log_inputs }] 1 := by
    refine ⟨Nat.le_refl 1, ?_, ?_, rfl⟩
    · rw [hchain1]
      rw [show (List.range 1) = [0] from rfl]
      simp
    · simp
  obtain ⟨pd2, k2, acc2, m2, hrun2, hinv2, hm2a, hm2b⟩ :=
    mine_while_pending_inv envs interval hi henv pd.blockchain t0 (n - 1) 1 pd1
      _ 1 hinv1
  rw [hrun2]
  dsimp only
  have hlen2 : acc2.length = m2 := hinv2.2.2.2
  by_cases hlt : acc2.length < n
  · rw [if_pos hlt]
    obtain ⟨pd3, acc3, hstep3, hinv3⟩ := mine_block_with_interval_step (envs k2)
      interval hi pd.blockchain t0 pd2 acc2 m2 hinv2 (henv k2).1 (henv k2).2
    rw [hstep3]
    dsimp only
    have hlen3 : acc3.length = m2 + 1 := hinv3.2.2.2
    have hm3n : m2 + 1 ≤ n := by omega
    by_cases hrem : n - acc3.length < 6
    · rw [if_pos (show n - acc3.length < MINIMUM_RESERVABLE_BLOCKS from hrem)]
      obtain ⟨pd', k', acc', hrun', hinv'⟩ := mine_remaining_inv envs interval hi
        henv pd.blockchain t0 (n - acc3.length) (k2 + 1) pd3 acc3 (m2 + 1) hinv3
      rw [hrun']
      dsimp only
      refine ⟨⟨acc', rfl⟩, ?_⟩
      have hfin := hinv'.2.1
      rw [show m2 + 1 + (n - acc3.length) = n from by omega] at hfin
      exact hfin
    · rw [if_neg (show ¬(n - acc3.length < MINIMUM_RESERVABLE_BLOCKS) from hrem)]
      rcases hgf : pd3.get_or_compute_state (envs (k2 + 1)).state_at_block_number
          pd3.last_block_number with ⟨stF, mintedF, pd4⟩
      dsimp only
      have hchain4 : pd4.blockchain = pd3.blockchain := by
        have hp := (get_or_compute_state_preserves pd3
          (envs (k2 + 1)).state_at_block_number pd3.last_block_number).2.1
        rw [hgf] at hp
        exact hp
      have hres : reserve_blocks pd4.blockchain (n - acc3.length - 1) interval =
          pd.blockchain ++ (List.range (m2 + 1 + (n - acc3.length - 1))).map
            (fun j => t0 + j * interval) := by
        refine reserve_blocks_chain pd.blockchain t0 interval (m2 + 1)
          (n - acc3.length - 1) (by omega) pd4.blockchain ?_
        rw [hchain4, hinv3.2.1]
      rw [hres]
      set BIG : List Nat := (pd.blockchain ++
        (List.range (m2 + 1 + (n - acc3.length - 1))).map
          (fun j => t0 + j * interval)) with hBIG
      rcases hadd : ({ pd4 with blockchain := BIG } : ProviderData).add_state_to_cache
          stF (({ pd4 with blockchain := BIG } : ProviderData).last_block_number)
        with ⟨sidF, pd6⟩
      dsimp only
      have hchain6 : pd6.blockchain = BIG := by
        have hcg := congrArg (fun x => x.2.blockchain) hadd
        dsimp only at hcg
        rw [← hcg]
        rfl
      rw [hchain6]
      rw [show last_block_timestamp BIG
          = t0 + (m2 + 1 + (n - acc3.length - 1) - 1) * interval from by
        rw [hBIG]
        exact last_block_timestamp_append_map pd.blockchain _ _ (by omega)]
      obtain ⟨pdF, idsF, rF, evF, hmF, hchainF⟩ := final_reserved_mine
        (envs (k2 + 1)) interval hi pd.blockchain t0
        (m2 + 1 + (n - acc3.length - 1)) (by omega) pd6 (by rw [hchain6, hBIG])
        (henv (k2 + 1)).1 (henv (k2 + 1)).2
      rw [hmF]
      dsimp only
      refine ⟨⟨acc3 ++ [rF], rfl⟩, ?_⟩
      rw [hchainF]
      rw [show m2 + 1 + (n - acc3.length - 1) + 1 = n from by omega]
  · rw [if_neg hlt]
    dsimp only
    by_cases hrem : n - acc2.length < 6
    · rw [if_pos (show n - acc2.length < MINIMUM_RESERVABLE_BLOCKS from hrem)]
      obtain ⟨pd', k', acc', hrun', hinv'⟩ := mine_remaining_inv envs interval hi
        henv pd.blockchain t0 (n - acc2.length) k2 pd2 acc2 m2 hinv2
      rw [hrun']
      dsimp only
      refine ⟨⟨acc', rfl⟩, ?_⟩
      have hfin := hinv'.2.1
      rw [show m2 + (n - acc2.length) = n from by omega] at hfin
      exact hfin
    · exact absurd (by omega : n - acc2.length < 6) hrem

/-- A fresh post-Merge engine with genesis timestamp 100, same-timestamp
blocks disallowed. -/
def c6_provider : ProviderData :=
  initial_provider 15 100 empty_state 0 0 0 false false none none

/-- A constant all-success mining oracle at wall-clock 200. -/
def c6_envs : Nat → MineEnv := fun _ =>
  { now := 200
    evm := Except.ok { block_hash := 9, transactions := [], state := empty_state,
                       console_log_inputs := [] }
    update_result := Except.ok []
    bloom_hit := fun _ => false
    logs_for := fun _ => []
    state_at_block_number := fun _ => empty_state }

/-- **C6 witness.**  Mining 2 blocks at interval 5 from chain `[100]` with
wall clock 200 produces the chain `[100, 200, 205]`: height +2, timestamps
stepping by the interval from the standard first timestamp 200. -/
theorem mine_and_commit_blocks_spec_witness :
    (c6_provider.mine_and_commit_blocks c6_envs 2 5).1.blockchain
      = [100, 200, 205] := by
  have h := (mine_and_commit_blocks_spec c6_provider c6_envs 2 5 (by decide)
    (by decide) (fun j => ⟨⟨_, rfl⟩, ⟨_, rfl⟩⟩) 200 none rfl).2
  rw [h]
  rfl

/-- **C6 counterexample.**  The claim quantifies over every `interval`, but
at `interval = 0` (with same-timestamp blocks disallowed) the second block's
timestamp is bumped to the first plus one, not the first plus the interval:
mining 2 blocks at interval 0 from chain `[100]` yields timestamps
`[200, 201]`, and `201 ≠ 200 + 0`. -/
theorem bulk_mining_zero_interval_not_step :
    ¬ (∀ (pd : ProviderData) (envs : Nat → MineEnv) (n interval : Nat), 1 ≤ n →
        ∀ t1 t2 i,
          (pd.mine_and_commit_blocks envs n interval).1.blockchain[pd.blockchain.length + i]?
            = some t1 →
          (pd.mine_and_commit_blocks envs n interval).1.blockchain[pd.blockchain.length + i + 1]?
            = some t2 →
          t2 = t1 + interval) := by
  intro h
  have hchain : (c6_provider.mine_and_commit_blocks c6_envs 2 0).1.blockchain
      = [100, 200, 201] := rfl
  have h1 : (c6_provider.mine_and_commit_blocks c6_envs 2 0).1.blockchain[c6_provider.blockchain.length + 0]?
      = some 200 := by rw [hchain]; rfl
  have h2 : (c6_provider.mine_and_commit_blocks c6_envs 2 0).1.blockchain[c6_provider.blockchain.length + 0 + 1]?
      = some 201 := by rw [hchain]; rfl
  have := h c6_provider c6_envs 2 0 (by decide) 200 201 0 h1 h2
  omega

/-! ## `send_transaction` auto-mine semantics -/

/-- Erasing a key above every key of the store is a no-op. -/
theorem aerase_keys_lt (i : Nat) (l : List (Nat × Snapshot)) :
    (∀ kv ∈ l, kv.1 < i) → aerase i l = l := by
  induction l with
  | nil => intro h; rfl
  | cons kv rest ih =>
      intro h
      have hk := h kv (List.mem_cons_self kv rest)
      unfold aerase
      rw [List.filter_cons, if_pos (by simp only [decide_eq_true_eq]; omega)]
      have := ih (fun kv hkv => h kv (List.mem_cons_of_mem _ hkv))
      unfold aerase at this
      rw [this]

/-- Keeping the keys below `i` of a store purged of key `i` returns the store
whenever its keys all lie below `i`. -/
theorem filter_lt_aerase (i : Nat) (l : List (Nat × Snapshot)) :
    (∀ kv ∈ l, kv.1 < i) →
    ((aerase i l).filter fun kv => decide (kv.1 < i)) = l := by
  induction l with
  | nil => intro h; rfl
  | cons kv rest ih =>
      intro h
      have hk := h kv (List.mem_cons_self kv rest)
      unfold aerase
      rw [List.filter_cons, if_pos (by simp only [decide_eq_true_eq]; omega),
        List.filter_cons, if_pos (by simp only [decide_eq_true_eq]; exact hk)]
      have := ih (fun kv hkv => h kv (List.mem_cons_of_mem _ hkv))
      unfold aerase at this
      rw [this]

/-- Keeping the keys below `i` after inserting at `i` into a store whose keys
all lie below `i` gives back the original store. -/
theorem filter_lt_ainsert (i : Nat) (s : Snapshot) (l : List (Nat × Snapshot))
    (h : ∀ kv ∈ l, kv.1 < i) :
    ((ainsert i s l).filter fun kv => decide (kv.1 < i)) = l := by
  unfold ainsert
  rw [List.filter_cons, if_neg (by simp)]
  exact filter_lt_aerase i l h

/-- Erasing key `i` after inserting at `i` into a store whose keys all lie
below `i` gives back the original store. -/
theorem aerase_ainsert (i : Nat) (s : Snapshot) (l : List (Nat × Snapshot))
    (h : ∀ kv ∈ l, kv.1 < i) :
    aerase i (ainsert i s l) = l := by
  unfold ainsert
  rw [aerase_keys_lt i l h]
  unfold aerase
  rw [List.filter_cons, if_neg (by simp)]
  have := aerase_keys_lt i l h
  unfold aerase at this
  rw [this]

/-- A key above every key of the store is absent from it. -/
theorem alookup_none_of_keys_lt (i : Nat) (l : List (Nat × Snapshot))
    (h : ∀ kv ∈ l, kv.1 < i) : alookup i l = none := by
  induction l with
  | nil => rfl
  | cons kv rest ih =>
      obtain ⟨k, v⟩ := kv
      have hk := h (k, v) (List.mem_cons_self (k, v) rest)
      unfold alookup
      rw [if_neg (by omega)]
      exact ih (fun kv hkv => h kv (List.mem_cons_of_mem _ hkv))

/-- Reverting an extended chain to the height of its prefix's tip recovers the
prefix. -/
theorem revert_to_block_append (c d : List Nat) (hc : c ≠ []) :
    revert_to_block (c ++ d) (c.length - 1) = c := by
  unfold revert_to_block
  have hl : c.length - 1 + 1 = c.length := by
    cases c with
    | nil => exact absurd rfl hc
    | cons a l => simp
  rw [hl]
  exact List.take_left c d

/-- A hit of `find_transaction_result` is a transaction of the block carrying
the searched hash. -/
theorem find_transaction_result_mem (txs : List (Nat × Nat × Nat))
    (tx_hash : Nat) (p : Nat × Nat)
    (hf : find_transaction_result txs tx_hash = some p) :
    (tx_hash, p.1, p.2) ∈ txs := by
  unfold find_transaction_result at hf
  obtain ⟨t, hfind, hp2⟩ := Option.map_eq_some'.mp hf
  have hmem := List.mem_of_find?_eq_some hfind
  have hp := List.find?_some hfind
  simp only [decide_eq_true_eq] at hp
  rw [← hp, ← hp2]
  exact hmem

/-- `add_pending_transaction` never touches the snapshot store, the chain or
the next snapshot id, and its verdict mirrors the mempool's admission
verdict. -/
theorem add_pending_transaction_frame (pd : ProviderData) (env : SendEnv)
    (tx_hash : Nat) :
    ((pd.add_pending_transaction env tx_hash).1).snapshots = pd.snapshots ∧
    ((pd.add_pending_transaction env tx_hash).1).blockchain = pd.blockchain ∧
    ((pd.add_pending_transaction env tx_hash).1).next_snapshot_id
      = pd.next_snapshot_id := by
  unfold ProviderData.add_pending_transaction
  rcases hg : pd.get_or_compute_state env.state_at_block_number pd.last_block_number
    with ⟨st, m, pd'⟩
  dsimp only
  have hpres := get_or_compute_state_preserves pd env.state_at_block_number
    pd.last_block_number
  rw [hg] at hpres
  obtain ⟨-, hchain, -, -, -, -, -, -, -, -, hsnapid, hsnap, -, -, -⟩ := hpres
  rcases env.admission with e | _
  · exact ⟨hsnap, hchain, hsnapid⟩
  · rcases hn : notify_pending_tx_filters tx_hash pd'.filters with ⟨filters', evs⟩
    dsimp only
    exact ⟨hsnap, hchain, hsnapid⟩

/-- Reverting (at instant `rt`, ms) to a snapshot freshly inserted under `id₀`
— above every id of the underlying store — restores every captured engine
field to the snapshot's values, truncates the chain back to the snapshot's
height and leaves exactly the underlying store. -/
theorem revert_restores_from (pd0 pdX : ProviderData) (snap : Snapshot)
    (id₀ rt : Nat)
    (hsnapX : pdX.snapshots = ainsert id₀ snap pd0.snapshots)
    (hchainX : ∃ d, pdX.blockchain = pd0.blockchain ++ d)
    (hkeys : ∀ kv ∈ pd0.snapshots, kv.1 < id₀)
    (hc0 : pd0.blockchain ≠ [])
    (hbn : snap.block_number = pd0.blockchain.length - 1)
    (hmp : snap.mem_pool = pd0.mem_pool)
    (hirr : snap.irregular_state = pd0.irregular_state)
    (hco : snap.coinbase = pd0.beneficiary)
    (hbf : snap.next_block_base_fee_per_gas = pd0.next_block_base_fee_per_gas)
    (hnt : snap.next_block_timestamp = pd0.next_block_timestamp)
    (hrg : snap.prev_randao_generator = pd0.prev_randao_generator)
    (hoff : snap.block_time_offset_seconds = pd0.block_time_offset_seconds)
    (hti : snap.time = st) :
    (pdX.revert_to_snapshot rt id₀).1.blockchain = pd0.blockchain ∧
    (pdX.revert_to_snapshot rt id₀).1.snapshots = pd0.snapshots ∧
    (pdX.revert_to_snapshot rt id₀).1.mem_pool = pd0.mem_pool ∧
    (pdX.revert_to_snapshot rt id₀).1.irregular_state = pd0.irregular_state ∧
    (pdX.revert_to_snapshot rt id₀).1.beneficiary = pd0.beneficiary ∧
    (pdX.revert_to_snapshot rt id₀).1.next_block_base_fee_per_gas
      = pd0.next_block_base_fee_per_gas ∧
    (pdX.revert_to_snapshot rt id₀).1.next_block_timestamp
      = pd0.next_block_timestamp ∧
    (pdX.revert_to_snapshot rt id₀).1.prev_randao_generator
      = pd0.prev_randao_generator ∧
    (pdX.revert_to_snapshot rt id₀).1.block_time_offset_seconds
      = pd0.block_time_offset_seconds + ((rt - st) / 1000 : Nat) := by
  have hlook : alookup id₀ pdX.snapshots = some snap := by
    rw [hsnapX]
    exact alookup_ainsert_self id₀ snap pd0.snapshots
  have hrem := alookup_split_off id₀ pdX.snapshots
  rw [hlook] at hrem
  obtain ⟨d, hd⟩ := hchainX
  refine ⟨?_, ?_, ?_, ?_, ?_, ?_, ?_, ?_, ?_⟩
  · rw [show (pdX.revert_to_snapshot rt id₀).1.blockchain
        = revert_to_block pdX.blockchain snap.block_number from by
          simp [ProviderData.revert_to_snapshot, hrem]]
    rw [hd, hbn]
    exact revert_to_block_append pd0.blockchain d hc0
  · rw [show (pdX.revert_to_snapshot rt id₀).1.snapshots
        = pdX.snapshots.filter (fun kv => decide (kv.1 < id₀)) from by
          simp [ProviderData.revert_to_snapshot, hrem]]
    rw [hsnapX]
    exact filter_lt_ainsert id₀ snap pd0.snapshots hkeys
  · simp [ProviderData.revert_to_snapshot, hrem, hmp]
  · simp [ProviderData.revert_to_snapshot, hrem, hirr]
  · simp [ProviderData.revert_to_snapshot, hrem, hco]
  · simp [ProviderData.revert_to_snapshot, hrem, hbf]
  · simp [ProviderData.revert_to_snapshot, hrem, hnt]
  · simp [ProviderData.revert_to_snapshot, hrem, hrg]
  · simp [ProviderData.revert_to_snapshot, hrem, hoff, hti]

/-- Invariant of the auto-mine loop: starting from an engine whose snapshot
store is the throwaway snapshot `snap` at `id₀` on top of `base` and whose
chain extends `c0`, a terminating run either ends in the revert of such an
engine together with the mining error, or keeps the store and the chain
extension and returns the submitted transaction's (result, trace) pair as
found in one of the accumulated mined blocks. -/
theorem auto_mine_loop_spec (env : SendEnv) (tx_hash id₀ : Nat) (snap : Snapshot)
    (base : List (Nat × Snapshot)) (c0 : List Nat) :
    ∀ fuel k pd acc out,
      pd.snapshots = ainsert id₀ snap base →
      (∃ d, pd.blockchain = c0 ++ d) →
      auto_mine_loop env tx_hash id₀ fuel k pd acc = some out →
      (∀ e, out.2 = Except.error e →
        ∃ pdX : ProviderData, out.1 = (pdX.revert_to_snapshot env.revert_time id₀).1 ∧
          pdX.snapshots = ainsert id₀ snap base ∧
          ∃ d, pdX.blockchain = c0 ++ d) ∧
      (∀ p acc' k', out.2 = Except.ok (p, acc', k') →
        out.1.snapshots = ainsert id₀ snap base ∧
        (∃ d, out.1.blockchain = c0 ++ d) ∧
        ∃ r ∈ acc', (tx_hash, p.1, p.2) ∈ r.transactions) := by
  intro fuel
  induction fuel with
  | zero =>
      intro k pd acc out hsnap hchain hrun
      exact absurd hrun (by unfold auto_mine_loop; simp)
  | succ fuel ih =>
      intro k pd acc out hsnap hchain hrun
      unfold auto_mine_loop at hrun
      rcases hm : pd.mine_and_commit_block (env.mines k) none with ⟨pd', minted, res⟩
      rw [hm] at hrun
      have hframe := mine_and_commit_block_frame pd (env.mines k) none
      rw [hm] at hframe
      dsimp only at hframe
      obtain ⟨⟨d1, hchain1⟩, hsnap1, -, -, -, -⟩ := hframe
      obtain ⟨d0, hd0⟩ := hchain
      have hsnap' : pd'.snapshots = ainsert id₀ snap base := by
        rw [hsnap1, hsnap]
      have hchain' : ∃ d, pd'.blockchain = c0 ++ d :=
        ⟨d0 ++ d1, by rw [hchain1, hd0, List.append_assoc]⟩
      rcases res with e | ⟨r, evs⟩
      · dsimp only at hrun
        injection hrun with hrun
        constructor
        · intro e' he
          refine ⟨pd', ?_, hsnap', hchain'⟩
          rw [← hrun]
        · intro p acc' k' he
          rw [← hrun] at he
          exact absurd he (by simp)
      · dsimp only at hrun
        rcases hfound : find_transaction_result r.transactions tx_hash with _ | p
        · rw [hfound] at hrun
          dsimp only at hrun
          exact ih (k + 1) pd' (acc ++ [r]) out hsnap' hchain' hrun
        · rw [hfound] at hrun
          dsimp only at hrun
          injection hrun with hrun
          constructor
          · intro e' he
            rw [← hrun] at he
            exact absurd he (by simp)
          · intro p' acc' k' he
            rw [← hrun] at he
            dsimp only at he
            injection he with he
            injection he with hp he
            injection he with hacc hk
            refine ⟨by rw [← hrun]; exact hsnap', by rw [← hrun]; exact hchain', r, ?_, ?_⟩
            · rw [← hacc]
              exact List.mem_append_right acc (List.mem_singleton.mpr rfl)
            · rw [← hp]
              exact find_transaction_result_mem r.transactions tx_hash p hfound

/-- Invariant of the mempool-drain loop: a terminating run either ends in the
revert of an engine still carrying the throwaway snapshot on an extended
chain, together with the mining error, or keeps the store and the chain
extension and only ever appends to the accumulated mining results. -/
theorem drain_loop_spec (env : SendEnv) (id₀ : Nat) (snap : Snapshot)
    (base : List (Nat × Snapshot)) (c0 : List Nat) :
    ∀ fuel k pd acc out,
      pd.snapshots = ainsert id₀ snap base →
      (∃ d, pd.blockchain = c0 ++ d) →
      drain_mem_pool_loop env id₀ fuel k pd acc = some out →
      (∀ e, out.2 = Except.error e →
        ∃ pdX : ProviderData, out.1 = (pdX.revert_to_snapshot env.revert_time id₀).1 ∧
          pdX.snapshots = ainsert id₀ snap base ∧
          ∃ d, pdX.blockchain = c0 ++ d) ∧
      (∀ acc', out.2 = Except.ok acc' →
        out.1.snapshots = ainsert id₀ snap base ∧
        (∃ d, out.1.blockchain = c0 ++ d) ∧
        ∃ extra, acc' = acc ++ extra) := by
  intro fuel
  induction fuel with
  | zero =>
      intro k pd acc out hsnap hchain hrun
      unfold drain_mem_pool_loop at hrun
      by_cases hmp : pd.mem_pool.isEmpty
      · rw [if_pos hmp] at hrun
        injection hrun with hrun
        constructor
        · intro e he
          rw [← hrun] at he
          exact absurd he (by simp)
        · intro acc' he
          rw [← hrun] at he
          dsimp only at he
          injection he with he
          refine ⟨by rw [← hrun]; exact hsnap, by rw [← hrun]; exact hchain, [], ?_⟩
          rw [← he, List.append_nil]
      · rw [if_neg hmp] at hrun
        exact absurd hrun (by simp)
  | succ fuel ih =>
      intro k pd acc out hsnap hchain hrun
      unfold drain_mem_pool_loop at hrun
      by_cases hmp : pd.mem_pool.isEmpty
      · rw [if_pos hmp] at hrun
        injection hrun with hrun
        constructor
        · intro e he
          rw [← hrun] at he
          exact absurd he (by simp)
        · intro acc' he
          rw [← hrun] at he
          dsimp only at he
          injection he with he
          refine ⟨by rw [← hrun]; exact hsnap, by rw [← hrun]; exact hchain, [], ?_⟩
          rw [← he, List.append_nil]
      · rw [if_neg hmp] at hrun
        rcases hm : pd.mine_and_commit_block (env.mines k) none with ⟨pd', minted, res⟩
        rw [hm] at hrun
        have hframe := mine_and_commit_block_frame pd (env.mines k) none
        rw [hm] at hframe
        dsimp only at hframe
        obtain ⟨⟨d1, hchain1⟩, hsnap1, -, -, -, -⟩ := hframe
        obtain ⟨d0, hd0⟩ := hchain
        have hsnap' : pd'.snapshots = ainsert id₀ snap base := by
          rw [hsnap1, hsnap]
        have hchain' : ∃ d, pd'.blockchain = c0 ++ d :=
          ⟨d0 ++ d1, by rw [hchain1, hd0, List.append_assoc]⟩
        rcases res with e | ⟨r, evs⟩
        · dsimp only at hrun
          injection hrun with hrun
          constructor
          · intro e' he
            refine ⟨pd', ?_, hsnap', hchain'⟩
            rw [← hrun]
          · intro acc' he
            rw [← hrun] at he
            exact absurd he (by simp)
        · dsimp only at hrun
          have hres := ih (k + 1) pd' (acc ++ [r]) out hsnap' hchain' hrun
          refine ⟨hres.1, ?_⟩
          intro acc' he
          obtain ⟨hs, hc, extra, hextra⟩ := hres.2 acc' he
          exact ⟨hs, hc, [r] ++ extra, by rw [hextra, List.append_assoc]⟩

/-- **C1.**  `send_transaction` with auto-mining on, once validation has
passed and the throwaway snapshot is taken: if the mempool admission or any
mine-and-commit iteration fails, the engine is reverted to that snapshot —
blockchain, snapshot store, mempool, irregular state, coinbase, next-block
base fee, next-block timestamp and prev-randao generator are back to their
pre-call values and the time offset gains the whole seconds elapsed between
the snapshot and the revert — and the error is returned; if every step
succeeds, the snapshot is discarded from the store (the store is back to its
pre-call value, which does not contain the snapshot's id) and the result
carries the transaction's execution result and trace, as recorded in one of
the returned mined blocks. -/
theorem send_transaction_auto_mine (pd : ProviderData) (env : SendEnv)
    (tx_hash fuel : Nat) (pdf : ProviderData)
    (out : Except ProviderError SendTransactionResult)
    (hauto : pd.is_auto_mining = true)
    (hval : env.validate = none)
    (hkeys : ∀ kv ∈ pd.snapshots, kv.1 < pd.next_snapshot_id)
    (hc0 : pd.blockchain ≠ [])
    (hrun : pd.send_transaction env tx_hash fuel = some (pdf, out)) :
    (∀ e, out = Except.error e →
      pdf.blockchain = pd.blockchain ∧
      pdf.snapshots = pd.snapshots ∧
      pdf.mem_pool = pd.mem_pool ∧
      pdf.irregular_state = pd.irregular_state ∧
      pdf.beneficiary = pd.beneficiary ∧
      pdf.next_block_base_fee_per_gas = pd.next_block_base_fee_per_gas ∧
      pdf.next_block_timestamp = pd.next_block_timestamp ∧
      pdf.prev_randao_generator = pd.prev_randao_generator ∧
      pdf.block_time_offset_seconds = pd.block_time_offset_seconds
        + ((env.revert_time - env.snapshot_time) / 1000 : Nat)) ∧
    (∀ res, out = Except.ok res →
      pdf.snapshots = pd.snapshots ∧
      alookup pd.next_snapshot_id pdf.snapshots = none ∧
      ∃ p, res.transaction_result = some p ∧
        ∃ r ∈ res.mining_results, (tx_hash, p.1, p.2) ∈ r.transactions) := by
  unfold ProviderData.send_transaction at hrun
  rw [if_pos hauto] at hrun
  rcases hg : pd.get_or_compute_state env.state_at_block_number pd.last_block_number
    with ⟨st0, m0, pdV⟩
  rw [hg] at hrun
  dsimp only at hrun
  have hV := get_or_compute_state_preserves pd env.state_at_block_number
    pd.last_block_number
  rw [hg] at hV
  dsimp only at hV
  obtain ⟨-, hVchain, hVirr, hVmp, hVben, hVrand, hVoff, -, hVbf, hVnt, hVsid,
    hVsnaps, -, -, -⟩ := hV
  rw [hval] at hrun
  dsimp only at hrun
  unfold ProviderData.make_snapshot at hrun
  dsimp only at hrun
  generalize hSnap : (⟨pdV.last_block_number, pdV.block_number_to_state_id,
      pdV.block_time_offset_seconds, pdV.beneficiary, pdV.irregular_state,
      pdV.mem_pool, pdV.next_block_base_fee_per_gas, pdV.next_block_timestamp,
      pdV.prev_randao_generator, env.snapshot_time⟩ : Snapshot) = snap at hrun
  generalize hPDS : ({ pdV with
      next_snapshot_id := pdV.next_snapshot_id + 1,
      snapshots := ainsert pdV.next_snapshot_id snap pdV.snapshots } :
      ProviderData) = pdS at hrun
  rw [hVsid] at hrun
  have hsnap_bn : snap.block_number = pd.blockchain.length - 1 := by
    rw [← hSnap]
    show pdV.last_block_number = pd.blockchain.length - 1
    unfold ProviderData.last_block_number
    rw [hVchain]
  have hsnap_mp : snap.mem_pool = pd.mem_pool := by
    rw [← hSnap]; exact hVmp
  have hsnap_irr : snap.irregular_state = pd.irregular_state := by
    rw [← hSnap]; exact hVirr
  have hsnap_co : snap.coinbase = pd.beneficiary := by
    rw [← hSnap]; exact hVben
  have hsnap_bf : snap.next_block_base_fee_per_gas = pd.next_block_base_fee_per_gas := by
    rw [← hSnap]; exact hVbf
  have hsnap_nt : snap.next_block_timestamp = pd.next_block_timestamp := by
    rw [← hSnap]; exact hVnt
  have hsnap_rg : snap.prev_randao_generator = pd.prev_randao_generator := by
    rw [← hSnap]; exact hVrand
  have hsnap_off : snap.block_time_offset_seconds = pd.block_time_offset_seconds := by
    rw [← hSnap]; exact hVoff
  have hsnap_t : snap.time = env.snapshot_time := by
    rw [← hSnap]
  have hpdS_snaps : pdS.snapshots = ainsert pd.next_snapshot_id snap pd.snapshots := by
    rw [← hPDS]
    show ainsert pdV.next_snapshot_id snap pdV.snapshots = _
    rw [hVsid, hVsnaps]
  have hpdS_chain : pdS.blockchain = pd.blockchain := by
    rw [← hPDS]
    show pdV.blockchain = _
    exact hVchain
  split at hrun
  -- mempool admission failed: revert and return the error
  next pdA e heq =>
    injection hrun with hrun
    injection hrun with hpdf hout
    subst hpdf
    subst hout
    have hA := add_pending_transaction_frame pdS env tx_hash
    rw [heq] at hA
    dsimp only at hA
    obtain ⟨hAsnaps, hAchain, -⟩ := hA
    have hrf := revert_restores_from pd pdA snap pd.next_snapshot_id env.revert_time
      (by rw [hAsnaps, hpdS_snaps])
      ⟨[], by rw [hAchain, hpdS_chain, List.append_nil]⟩
      hkeys hc0 hsnap_bn hsnap_mp hsnap_irr hsnap_co hsnap_bf hsnap_nt hsnap_rg
      hsnap_off hsnap_t
    constructor
    · intro e' he
      exact hrf
    · intro res he
      exact Except.noConfusion he
  -- admission succeeded: run the mining loops
  next pdA th heq =>
    have hA := add_pending_transaction_frame pdS env tx_hash
    rw [heq] at hA
    dsimp only at hA
    obtain ⟨hAsnaps, hAchain, -⟩ := hA
    have hAsn : pdA.snapshots = ainsert pd.next_snapshot_id snap pd.snapshots := by
      rw [hAsnaps, hpdS_snaps]
    have hAch : ∃ d, pdA.blockchain = pd.blockchain ++ d :=
      ⟨[], by rw [hAchain, hpdS_chain, List.append_nil]⟩
    split at hrun
    -- auto-mine loop ran out of fuel
    next heq2 =>
      exact Option.noConfusion hrun
    -- auto-mine loop hit a mining error: revert and return the error
    next pdM e heq2 =>
      injection hrun with hrun
      injection hrun with hpdf hout
      subst hpdf
      subst hout
      have hspec := (auto_mine_loop_spec env tx_hash pd.next_snapshot_id snap
        pd.snapshots pd.blockchain fuel 0 pdA [] (pdM, Except.error e)
        hAsn hAch heq2).1 e rfl
      dsimp only at hspec
      obtain ⟨pdX, hpdX, hXsnaps, hXchain⟩ := hspec
      have hrf := revert_restores_from pd pdX snap pd.next_snapshot_id env.revert_time
        hXsnaps hXchain hkeys hc0 hsnap_bn hsnap_mp hsnap_irr hsnap_co hsnap_bf
        hsnap_nt hsnap_rg hsnap_off hsnap_t
      constructor
      · intro e' he
        rw [hpdX]
        exact hrf
      · intro res he
        exact Except.noConfusion he
    -- the transaction was mined: drain the mempool
    next pdM p acc2 k2 heq2 =>
      have hspec := (auto_mine_loop_spec env tx_hash pd.next_snapshot_id snap
        pd.snapshots pd.blockchain fuel 0 pdA [] (pdM, Except.ok (p, acc2, k2))
        hAsn hAch heq2).2 p acc2 k2 rfl
      dsimp only at hspec
      obtain ⟨hMsnaps, hMchain, r, hr, hrtx⟩ := hspec
      split at hrun
      -- drain loop ran out of fuel
      next heq3 =>
        exact Option.noConfusion hrun
      -- drain loop hit a mining error: revert and return the error
      next pdD e heq3 =>
        injection hrun with hrun
        injection hrun with hpdf hout
        subst hpdf
        subst hout
        have hdspec := (drain_loop_spec env pd.next_snapshot_id snap pd.snapshots
          pd.blockchain fuel k2 pdM acc2 (pdD, Except.error e)
          hMsnaps hMchain heq3).1 e rfl
        dsimp only at hdspec
        obtain ⟨pdX, hpdX, hXsnaps, hXchain⟩ := hdspec
        have hrf := revert_restores_from pd pdX snap pd.next_snapshot_id
          env.revert_time hXsnaps hXchain hkeys hc0 hsnap_bn hsnap_mp hsnap_irr
          hsnap_co hsnap_bf hsnap_nt hsnap_rg hsnap_off hsnap_t
        constructor
        · intro e' he
          rw [hpdX]
          exact hrf
        · intro res he
          exact Except.noConfusion he
      -- every step succeeded: discard the snapshot and return the result
      next pdD acc3 heq3 =>
        injection hrun with hrun
        injection hrun with hpdf hout
        subst hpdf
        subst hout
        have hdspec := (drain_loop_spec env pd.next_snapshot_id snap pd.snapshots
          pd.blockchain fuel k2 pdM acc2 (pdD, Except.ok acc3)
          hMsnaps hMchain heq3).2 acc3 rfl
        dsimp only at hdspec
        obtain ⟨hDsnaps, hDchain, extra, hacc3⟩ := hdspec
        constructor
        · intro e' he
          exact Except.noConfusion he
        · intro res he
          injection he with he
          subst he
          have h1 : aerase pd.next_snapshot_id pdD.snapshots = pd.snapshots := by
            rw [hDsnaps]
            exact aerase_ainsert pd.next_snapshot_id snap pd.snapshots hkeys
          refine ⟨h1, ?_, p, rfl, r, ?_, hrtx⟩
          · show alookup pd.next_snapshot_id (aerase pd.next_snapshot_id pdD.snapshots)
              = none
            rw [h1]
            exact alookup_none_of_keys_lt pd.next_snapshot_id pd.snapshots hkeys
          · show r ∈ acc3
            rw [hacc3]
            exact List.mem_append_left extra hr

/-- A concrete auto-mining engine (genesis timestamp 100). -/
def c1_provider : ProviderData :=
  initial_provider 15 100 empty_state 0 0 0 true false none none

/-- A concrete mining oracle for the C1 witness: the EVM mines block hash 5
holding transaction 42 with result 7 and trace 8, and the mempool reconciles
to empty. -/
def c1_mine_env : MineEnv :=
  { now := 200
    evm := Except.ok ⟨5, [(42, 7, 8)], empty_state, []⟩
    update_result := Except.ok []
    bloom_hit := fun _ => false
    logs_for := fun _ => []
    state_at_block_number := fun _ => empty_state }

/-- A concrete `send_transaction` oracle: validation and admission pass, the
snapshot is taken at 0 ms and any revert would happen at 2500 ms. -/
def c1_env : SendEnv :=
  { state_at_block_number := fun _ => empty_state
    validate := none
    admission := none
    snapshot_time := 0
    revert_time := 2500
    mines := fun _ => c1_mine_env }

/-- The engine/result pair of the C1 witness run. -/
def c1_run : ProviderData × Except ProviderError SendTransactionResult :=
  (c1_provider.send_transaction c1_env 42 1).getD
    (c1_provider, Except.error ProviderError.invalidBlockTag)

/-- **C1 witness.**  Auto-mining transaction 42 on `c1_provider` succeeds in
one iteration: the throwaway snapshot is discarded (the final store equals the
pre-call store and does not hold the minted id) and the result records the
transaction's execution result and trace inside the returned mined block. -/
theorem send_transaction_auto_mine_witness :
    c1_run.1.snapshots = c1_provider.snapshots ∧
    alookup c1_provider.next_snapshot_id c1_run.1.snapshots = none ∧
    ∃ p, (⟨42, some (7, 8), [⟨200, 5, [(42, 7, 8)], []⟩]⟩ :
        SendTransactionResult).transaction_result = some p ∧
      ∃ r ∈ (⟨42, some (7, 8), [⟨200, 5, [(42, 7, 8)], []⟩]⟩ :
        SendTransactionResult).mining_results, (42, p.1, p.2) ∈ r.transactions := by
  exact (send_transaction_auto_mine c1_provider c1_env 42 1 c1_run.1 c1_run.2
    rfl rfl (by decide) (by decide) rfl).2
    ⟨42, some (7, 8), [⟨200, 5, [(42, 7, 8)], []⟩]⟩ rfl
